import Mathlib

/-!
# Verification of the docpy token-stream documentation extractor

This file gives a shallow embedding of `src/docpy.py`, a single-pass
structural parser that extracts Markdown documentation from a Python
token stream, and proves properties of that embedding.

Modelling conventions:
* Python strings are `List Char` (`Str`); Python string methods
  (`strip`, `replace`, `split`, `splitlines`, `startswith`, `join`) are
  translated as executable functions on `List Char`.
* The external tokenizer is out of scope (per the design): a module is a
  finite `List Tok` of `(kind, lexeme)` pairs, exactly the `item[:2]`
  truncation performed by the cursor class `G`.
* The cursor class `G` (class-level generator, `last_item`, `_rollback`
  flag) becomes the record `Cur`; the module-level globals
  (`all_list`, `current_module`, `current_class`, `IGNORE_UNDOCUMENTED`,
  `has_classes_title`) together with the cursor form the state `PSt`
  threaded through every function.
* Python exceptions used for control flow (`BlockExit`, `StopIteration`)
  become the `Sig` component of the result type `Out`; since the Python
  state is global, a raised signal still carries the mutated state.
* Loops (`while True`) take a fuel parameter and answer `.fuelOut` when
  it runs out; theorems always exhibit sufficient fuel, so no behaviour
  is hidden by fuel exhaustion.  Dead local variables of the source
  (`indents` in `find_docstring`, the `result = []` right before the
  early `return` in `doc_function`) are dropped.
-/

/-- Python strings, as lists of characters. -/
abbrev Str := List Char

/-- Shorthand turning a Lean string literal into a `Str`. -/
def S (s : String) : Str := s.toList

/-- `pre.isPrefixOf s`, Python's `s.startswith(pre)`. -/
def pyStartswith (pre s : Str) : Bool := List.isPrefixOf pre s

/-- Python `s.strip(cs)`: remove leading and trailing characters that
belong to the set `cs`. -/
def pyStrip (cs : Str) (s : Str) : Str :=
  ((s.dropWhile (fun c => decide (c ∈ cs))).reverse.dropWhile (fun c => decide (c ∈ cs))).reverse

/-- Python `s.replace(p, r)` for a one-character pattern `p`. -/
def replace1 (p : Char) (r : Str) : Str → Str
  | [] => []
  | c :: s => if c = p then r ++ replace1 p r s else c :: replace1 p r s

/-- Python `s.replace(pq, r)` for a two-character pattern `p,q`
(left-to-right, non-overlapping). -/
def replace2 (p q : Char) (r : Str) : Str → Str
  | [] => []
  | [c] => [c]
  | c1 :: c2 :: s =>
    if c1 = p ∧ c2 = q then r ++ replace2 p q r s
    else c1 :: replace2 p q r (c2 :: s)

/-- Python `s.replace(pqr, rep)` for a three-character pattern
(used only for the `.py` removal in the module assembler). -/
def replace3 (p q r : Char) (rep : Str) : Str → Str
  | [] => []
  | [c] => [c]
  | [c, d] => [c, d]
  | c1 :: c2 :: c3 :: s =>
    if c1 = p ∧ c2 = q ∧ c3 = r then rep ++ replace3 p q r rep s
    else c1 :: replace3 p q r rep (c2 :: c3 :: s)

/-- Python `s.split(sep)` for a one-character separator; `''.split(c) = ['']`. -/
def pySplit (sep : Char) : Str → List Str
  | [] => [[]]
  | c :: s =>
    if c = sep then [] :: pySplit sep s
    else
      match pySplit sep s with
      | [] => [[c]]
      | l :: ls => (c :: l) :: ls

/-- Python `s.splitlines()`: split at `\n`, `\r` and `\r\n`; a trailing
break produces no extra empty line and `''` gives `[]`. -/
def pySplitlines : Str → List Str
  | [] => []
  | '\r' :: '\n' :: s => [] :: pySplitlines s
  | c :: s =>
    if c = '\n' ∨ c = '\r' then [] :: pySplitlines s
    else
      match pySplitlines s with
      | [] => [[c]]
      | l :: ls => (c :: l) :: ls

/-- Python `sep.join(parts)`. -/
def pyJoin (sep : Str) (parts : List Str) : Str := List.intercalate sep parts

/-- The span-replacement loop of `unquote_code_regex.sub` (pattern
`` `[^`]*\` ``): the first component is `some acc` while inside a
back-tick span whose content (reversed) is `acc`; inside a completed
span every `\_` is turned back into `_`; an unclosed trailing span is
left untouched (no regex match). -/
def uqGo : Option Str → Str → Str
  | none, [] => []
  | none, c :: s => if c = '`' then uqGo (some []) s else c :: uqGo none s
  | some acc, [] => '`' :: acc.reverse
  | some acc, c :: s =>
    if c = '`' then
      ('`' :: replace2 '\\' '_' (S "_") acc.reverse ++ [c]) ++ uqGo none s
    else uqGo (some (c :: acc)) s

/-- `unquote_code_regex.sub(lambda x: x.group(0).replace('\_','_'), s)`. -/
def unquote_code (s : Str) : Str := uqGo none s

/-- `cgi.escape(s)` (without quote escaping): `&`, then `<`, then `>`. -/
def cgi_escape (s : Str) : Str :=
  replace1 '>' (S "&gt;") (replace1 '<' (S "&lt;") (replace1 '&' (S "&amp;") s))

/-- The docstring normalization pipeline applied by `find_docstring` to a
triple-quoted string token (docpy.py lines 162-167): strip the quote
characters and surrounding line breaks, escape underscores, dedent by
the first line's leading whitespace, un-escape underscores inside
back-tick spans, turn line breaks into Markdown hard breaks, and
HTML-escape. -/
def normalize_docstring (token : Str) : Str :=
  let d0 := pyStrip (S "\r\n") (pyStrip (S "\"\"\"") (pyStrip (S "'''") token))
  let d1 := replace1 '_' (S "\\_") d0
  let n := (d1.takeWhile (fun c => c = ' ' ∨ c = '\t')).length
  let d2 := pyJoin (S "\n") ((pySplitlines d1).map (List.drop n))
  let d3 := unquote_code d2
  let d4 := replace1 '\n' (S "  \n") d3
  cgi_escape d4

/-- Token kinds distinguished by the parser: `NAME`, `STRING`, `OP`,
`INDENT`, `DEDENT`; every other tokenize kind (NEWLINE, NL, COMMENT,
ENDMARKER, ...) is structurally inert and collapses to `tother`. -/
inductive TKind where
  | tname | tstr | top | tindent | tdedent | tother
deriving DecidableEq

/-- A token, the `(type, string)` pair produced by `item[:2]` in `G`. -/
structure Tok where
  kind : TKind
  lex : Str
deriving DecidableEq

/-- The cursor state of class `G`: the one-slot rollback flag
`_rollback`, the last returned token `last_item`, and the remaining
stream. -/
structure Cur where
  flag : Bool
  last : Option Tok
  toks : List Tok
deriving DecidableEq

/-- `G().next()`: consume the rollback buffer first if the flag is set,
otherwise take the next stream token and record it as `last_item`;
`none` models the `StopIteration` raised on exhaustion.  (The state with
`flag = true` and `last = none` can only occur before any token was
returned; the Python code would crash there, it is unreachable in every
use below.) -/
def Cur.next (c : Cur) : Option (Tok × Cur) :=
  if c.flag then
    match c.last with
    | some t => some (t, { c with flag := false })
    | none => none
  else
    match c.toks with
    | [] => none
    | t :: ts => some (t, ⟨false, some t, ts⟩)

/-- `G().rollback()`: it only sets the class-level flag. -/
def Cur.rollback (c : Cur) : Cur := { c with flag := true }

/-- The global parse state: the cursor plus the module-level globals of
docpy.py. -/
structure PSt where
  cur : Cur
  all_list : List Str
  current_module : Str
  current_class : Str
  ignore_undoc : Bool
  has_classes_title : Bool
deriving DecidableEq

/-- Control-flow signals: the `BlockExit` exception, `StopIteration`
(end of stream), and fuel exhaustion of the model (never the program). -/
inductive Sig where
  | blockExit | eos | fuelOut
deriving DecidableEq

/-- Result of a parse step: a value or a propagating signal; both carry
the (globally mutated) state. -/
inductive Out (α : Type) where
  | ok : α → PSt → Out α
  | sig : Sig → PSt → Out α
deriving DecidableEq

/-- `G().next()` lifted to the full state. -/
def pnext (st : PSt) : Option (Tok × PSt) :=
  match st.cur.next with
  | none => none
  | some (t, c) => some (t, { st with cur := c })

/-- `G().rollback()` lifted to the full state. -/
def prollback (st : PSt) : PSt := { st with cur := st.cur.rollback }

/-- `Stack.push`: append, but silently drop falsy (empty) items. -/
def stackPush (item : Str) (l : List Str) : List Str :=
  if item = [] then l else l ++ [item]

/-- Push an optional result (`Stack.push(None)` is also a no-op). -/
def pushOpt (r : Option Str) (l : List Str) : List Str :=
  match r with
  | none => l
  | some s => stackPush s l

/-- Python `stack[1:-2]`. -/
def pySlice1m2 (l : List Str) : List Str := ((l.drop 1).dropLast).dropLast

/-- The collection loop of `get_all_list`: consume tokens until the
closing bracket, pushing every string literal's unquoted value; on the
closing bracket overwrite `all_list` with what was collected. -/
def gal_loop : Nat → Str → List Str → PSt → Out Unit
  | 0, _, _, st => .sig .fuelOut st
  | fuel + 1, closing, acc, st =>
    match pnext st with
    | none => .sig .eos st
    | some (t, st') =>
      if t.lex = closing then .ok () { st' with all_list := acc }
      else if t.kind = .tstr then
        gal_loop fuel closing (stackPush (pyStrip (S "\"") (pyStrip (S "'") t.lex)) acc) st'
      else gal_loop fuel closing acc st'

/-- `get_all_list()`: consume the `=` sign and the opening bracket,
decide the matching closing bracket, then collect (docpy.py 214-226). -/
def get_all_list (fuel : Nat) (st : PSt) : Out Unit :=
  match pnext st with
  | none => .sig .eos st
  | some (_, st1) =>
    match pnext st1 with
    | none => .sig .eos st1
    | some (t2, st2) =>
      gal_loop fuel (if t2.lex = S "[" then S "]" else S ")") [] st2

/-- `find_docstring()` (docpy.py 149-168): scan for the first decisive
token.  A `NAME` ends the scan (rolling back `class`/`def`, capturing an
`__all__` export list); a string token starting with a triple quote is
normalized and returned as the docstring; everything else (including
indent tokens and non-triple strings) is skipped. -/
def find_docstring : Nat → PSt → Out Str
  | 0, st => .sig .fuelOut st
  | fuel + 1, st =>
    match pnext st with
    | none => .sig .eos st
    | some (t, st') =>
      if t.kind = .tname then
        if t.lex = S "class" ∨ t.lex = S "def" then .ok [] (prollback st')
        else if t.lex = S "__all__" then
          match get_all_list fuel st' with
          | .ok _ st'' => .ok [] st''
          | .sig s st'' => .sig s st''
        else .ok [] st'
      else if t.kind = .tstr ∧
          (pyStartswith (S "'''") t.lex = true ∨ pyStartswith (S "\"\"\"") t.lex = true) then
        .ok (normalize_docstring t.lex) st'
      else find_docstring fuel st'

/-- `find_colons()` (docpy.py 193-201): push every token lexeme until an
operator `:`; return `stack[1:-2]` (the Python guard `if stack:` is kept
although the stack can never be empty at the colon). -/
def find_colons : Nat → List Str → PSt → Out (List Str)
  | 0, _, st => .sig .fuelOut st
  | fuel + 1, acc, st =>
    match pnext st with
    | none => .sig .eos st
    | some (t, st') =>
      let acc' := stackPush t.lex acc
      if t.kind = .top ∧ t.lex = S ":" then
        .ok (if acc' ≠ [] then pySlice1m2 acc' else acc') st'
      else find_colons fuel acc' st'

/-- `exit_block()` (docpy.py 203-212): track depth over indent/dedent
tokens and return normally having consumed the dedent that would drive
the counter negative; exhaustion propagates `StopIteration`. -/
def exit_block : Nat → Int → PSt → Out Unit
  | 0, _, st => .sig .fuelOut st
  | fuel + 1, indents, st =>
    match pnext st with
    | none => .sig .eos st
    | some (t, st') =>
      if t.kind = .tindent then exit_block fuel (indents + 1) st'
      else if t.kind = .tdedent then
        if indents - 1 < 0 then .ok () st'
        else exit_block fuel (indents - 1) st'
      else exit_block fuel indents st'

/-- The `self`-elision of `doc_function` (docpy.py 240-243): if the first
collected argument token is `self`, drop it and the immediately
following token (if any); `is_method` plays no role here. -/
def elide_self (args : List Str) : List Str :=
  match args with
  | [] => []
  | a :: rest => if a = S "self" then rest.tail else a :: rest

/-- The argument-string pipeline of `doc_function` (docpy.py 244-247):
concatenate, re-split on commas with uniform spacing, escape `_` and
`*`, and wrap a nonempty result in `_..._`. -/
def build_arg_string (args : List Str) : Str :=
  let a1 := pyJoin [] args
  let a2 := replace1 '*' (S "\\*") (replace1 '_' (S "\\_") (pyJoin (S ", ") (pySplit ',' a1)))
  if a2 = [] then [] else S "_" ++ a2 ++ S "_"

/-- Everything `doc_function` does that does not depend on `is_method`
(docpy.py 228-253): read the name (an immediate `None` for a private
name other than `__init__`), build the heading, parse the signature,
scan one docstring, skip the body.  Returns `none` for the discarded
private definition and otherwise the escaped name, the pushed stack and
the docstring for the final filter. -/
def doc_function_core (fuel : Nat) (st : PSt) : Out (Option (Str × List Str × Str)) :=
  match pnext st with
  | none => .sig .eos st
  | some (t, st1) =>
    let name := t.lex
    if pyStartswith (S "_") name = true ∧ name ≠ S "__init__" then .ok none st1
    else
      let name' := replace1 '_' (S "\\_") name
      let class_name := if st1.current_class ≠ [] then st1.current_class ++ S "." else []
      let func_name :=
        S "##### " ++ st1.current_module ++ S "." ++ class_name ++ S "**" ++ name' ++ S "**"
      match find_colons fuel [] st1 with
      | .sig s st2 => .sig s st2
      | .ok args0 st2 =>
        let arg_string := build_arg_string (elide_self args0)
        let line := func_name ++ S "(" ++ arg_string ++ S ")"
        match find_docstring fuel st2 with
        | .sig s st3 => .sig s st3
        | .ok doc_ st3 =>
          let stack := stackPush doc_ (stackPush line [])
          match exit_block fuel 0 st3 with
          | .sig s st4 => .sig s st4
          | .ok _ st4 => .ok (some (name', stack, doc_)) st4

/-- The final inclusion filter of `doc_function` (docpy.py 255-261),
the only place `is_method` is consulted: a non-method absent from a
nonempty `__all__`, or an undocumented definition under
`IGNORE_UNDOCUMENTED`, yields the empty join `''`. -/
def doc_function_filter (is_method : Bool) (r : Out (Option (Str × List Str × Str))) :
    Out (Option Str) :=
  match r with
  | .sig s st => .sig s st
  | .ok none st => .ok none st
  | .ok (some (name', stack, doc_)) st =>
    if ((¬ is_method) ∧ st.all_list ≠ [] ∧
          ¬ (replace2 '\\' '_' (S "_") name') ∈ st.all_list) ∨
        (st.ignore_undoc = true ∧ doc_ = []) then
      .ok (some (pyJoin (S "\n") [])) st
    else
      .ok (some (pyJoin (S "\n") stack)) st

/-- `doc_function(is_method)` (docpy.py 228-261). -/
def doc_function (fuel : Nat) (is_method : Bool) (st : PSt) : Out (Option Str) :=
  doc_function_filter is_method (doc_function_core fuel st)

/-- `find_class_or_function(types)` (docpy.py 170-188), parameterized by
the handler invoked on a `class` keyword so that the `types=('def',)`
instance (whose `class` branch is unreachable) can be defined before
`doc_class`.  Tracks block depth and raises `BlockExit` on underflow;
captures `__all__` lists encountered while scanning. -/
def find_cof (onClass : Nat → PSt → Out (Option Str)) (types : List Str) (is_method : Bool) :
    Nat → Int → PSt → Out (Option Str)
  | 0, _, st => .sig .fuelOut st
  | fuel + 1, indents, st =>
    match pnext st with
    | none => .sig .eos st
    | some (t, st') =>
      if t.kind = .tname ∧ t.lex ∈ types then
        if t.lex = S "class" then onClass fuel st'
        else doc_function fuel is_method st'
      else if t.kind = .tname ∧ t.lex = S "__all__" then
        match get_all_list fuel st' with
        | .ok _ st'' => find_cof onClass types is_method fuel indents st''
        | .sig s st'' => .sig s st''
      else if t.kind = .tindent then find_cof onClass types is_method fuel (indents + 1) st'
      else if t.kind = .tdedent then
        if indents - 1 < 0 then .sig .blockExit st'
        else find_cof onClass types is_method fuel (indents - 1) st'
      else find_cof onClass types is_method fuel indents st'

/-- Placeholder class handler for the `types=('def',)` instance; the
guard `token in types` makes it unreachable there. -/
def no_class (_fuel : Nat) (st : PSt) : Out (Option Str) := .sig .fuelOut st

/-- The method loop of `doc_class` (docpy.py 281-287): repeatedly run
`find_method()` (= `find_class_or_function(('def',), is_method=True)`)
pushing each result until `BlockExit`. -/
def method_loop : Nat → PSt → List Str → Out (List Str)
  | 0, st, _ => .sig .fuelOut st
  | fuel + 1, st, acc =>
    match find_cof no_class [S "def"] true fuel 0 st with
    | .ok r st' => method_loop fuel st' (pushOpt r acc)
    | .sig .blockExit st' => .ok acc st'
    | .sig s st' => .sig s st'

/-- `doc_class()` (docpy.py 263-297): emit the one-time `### Classes`
title and the class heading, set `current_class`, skip to the colon,
read the class docstring, loop over methods until the enclosing block
closes, then apply the export-list/undocumented filter. -/
def doc_class (fuel : Nat) (st : PSt) : Out (Option Str) :=
  match pnext st with
  | none => .sig .eos st
  | some (t, st1) =>
    let name' := replace1 '_' (S "\\_") t.lex
    let stack0 := if st1.has_classes_title = false then stackPush (S "### Classes") [] else []
    let stack1 := stackPush (S "#### _class_ " ++ st1.current_module ++ S ".**" ++ name' ++ S "**") stack0
    let st1' := { st1 with current_class := name' }
    match find_colons fuel [] st1' with
    | .sig s st2 => .sig s st2
    | .ok _ st2 =>
      match find_docstring fuel st2 with
      | .sig s st3 => .sig s st3
      | .ok doc_ st3 =>
        let stack2 := stackPush doc_ stack1
        match method_loop fuel st3 stack2 with
        | .sig s st4 => .sig s st4
        | .ok stack3 st4 =>
          let st5 := { st4 with current_class := [] }
          if (st5.all_list ≠ [] ∧ ¬ (replace2 '\\' '_' (S "_") name') ∈ st5.all_list) ∨
              (st5.ignore_undoc = true ∧ doc_ = []) then
            .ok (some (pyJoin (S "\n") [])) st5
          else
            .ok (some (pyJoin (S "\n") stack3)) { st5 with has_classes_title := true }

/-- `find_class_or_function` proper, with `doc_class` as class handler. -/
def find_class_or_function (types : List Str) (is_method : Bool) (fuel : Nat) (indents : Int)
    (st : PSt) : Out (Option Str) :=
  find_cof doc_class types is_method fuel indents st

/-- The member loop of `DocModule.__init__` (docpy.py 336-344): collect
truthy results of `find_class_or_function()` and record whether anything
was documented, until `BlockExit` or `StopIteration`. -/
def class_loop : Nat → PSt → List Str → Bool → Out (List Str × Bool)
  | 0, st, _, _ => .sig .fuelOut st
  | fuel + 1, st, acc, documented =>
    match find_class_or_function [S "class", S "def"] false fuel 0 st with
    | .ok r st' =>
      class_loop fuel st' (pushOpt r acc)
        (documented || (match r with | some s => s ≠ [] | none => false))
    | .sig .blockExit st' => .ok (acc, documented) st'
    | .sig .eos st' => .ok (acc, documented) st'
    | .sig .fuelOut st' => .sig .fuelOut st'

/-- `DocModule.__init__` on an already-tokenized module (docpy.py
300-349, without the file handling and `add_ref`): build the header,
read the module docstring, run the member loop, and drop everything when
nothing was documented under `IGNORE_UNDOCUMENTED`.  `none` is fuel
exhaustion of the model. -/
def doc_module (fuel : Nat) (basename : Str) (ign : Bool) (toks : List Tok) :
    Option (List Str) :=
  let module_name := replace1 '_' (S "\\_") basename
  let st0 : PSt :=
    { cur := ⟨false, none, toks⟩, all_list := [],
      current_module := replace3 '.' 'p' 'y' [] module_name, current_class := [],
      ignore_undoc := ign, has_classes_title := false }
  let stack0 := stackPush (S "## " ++ module_name) []
  match find_docstring fuel st0 with
  | .sig .fuelOut _ => none
  | .sig _ _ => some []
  | .ok doc_ st1 =>
    let stack1 := stackPush doc_ stack0
    match class_loop fuel st1 stack1 false with
    | .sig _ _ => none
    | .ok (stackF, documented) _ =>
      if (¬ (doc_ ≠ [] ∨ documented = true)) ∧ ign = true then some [] else some stackF

/-!
## Token shapes used in the statements

Concrete token constructors and a family of simple top-level function
definitions, used to state the export-list and nesting properties.
-/

/-- A `NAME` token. -/
def nmTok (s : Str) : Tok := ⟨.tname, s⟩

/-- An `OP` token. -/
def opTok (s : Str) : Tok := ⟨.top, s⟩

/-- A `STRING` token. -/
def strTok (s : Str) : Tok := ⟨.tstr, s⟩

/-- An `INDENT` token (lexeme: the indentation whitespace). -/
def indTok : Tok := ⟨.tindent, S "    "⟩

/-- A `DEDENT` token (empty lexeme, as produced by tokenize). -/
def dedTok : Tok := ⟨.tdedent, []⟩

/-- A structurally inert token (newline). -/
def nlTok : Tok := ⟨.tother, S "\n"⟩

/-- A triple quote. -/
def tq : Str := S "'''"

/-- A simple top-level function definition: a name, and an optional
docstring body. -/
structure Df where
  fname : Str
  doc? : Option Str
deriving DecidableEq

/-- The token stream of a simple definition after its `def` keyword and
name: `(): NEWLINE INDENT [docstring NEWLINE] pass NEWLINE DEDENT`. -/
def defBody (d : Df) : List Tok :=
  [opTok (S "("), opTok (S ")"), opTok (S ":"), nlTok, indTok] ++
  (match d.doc? with
   | some ds => [strTok (tq ++ ds ++ tq), nlTok]
   | none => []) ++
  [nmTok (S "pass"), nlTok, dedTok]

/-- The full token stream of a simple definition. -/
def defToks (d : Df) : List Tok := nmTok (S "def") :: nmTok d.fname :: defBody d

/-- The token stream of a module body consisting of simple definitions. -/
def modToks (ds : List Df) : List Tok := (ds.map defToks).flatten

/-- The normalized docstring a simple definition produces (`''` if it
has none). -/
def defDoc (d : Df) : Str :=
  match d.doc? with
  | some ds => normalize_docstring (tq ++ ds ++ tq)
  | none => []

/-- The heading line `doc_function` renders for a simple top-level
definition in module `mod`. -/
def defLine (mod : Str) (d : Df) : Str :=
  S "##### " ++ mod ++ S "." ++ S "**" ++ replace1 '_' (S "\\_") d.fname ++
    S "**" ++ S "(" ++ S ")"

/-- The member entry a simple definition contributes to the module's
member list: nothing when its name is private or it is filtered out by
the export list or the undocumented rule, otherwise its rendered
heading-plus-docstring block. -/
def expectedMember (mod : Str) (al : List Str) (ig : Bool) (d : Df) : Option Str :=
  if pyStartswith (S "_") d.fname = true ∧ d.fname ≠ S "__init__" then none
  else if (al ≠ [] ∧ ¬ d.fname ∈ al) ∨ (ig = true ∧ defDoc d = []) then none
  else some (pyJoin (S "\n") (stackPush (defDoc d) (stackPush (defLine mod d) [])))

/-- The depth contribution of one token in the block scanners. -/
def tdelta (t : Tok) : Int :=
  if t.kind = .tindent then 1 else if t.kind = .tdedent then -1 else 0

/-- The net depth change of a token list. -/
def tnet (l : List Tok) : Int := (l.map tdelta).sum

/-- `noUnder i l`: scanning `l` with a depth counter starting at `i`
never makes the counter negative at a dedent. -/
def noUnder : Int → List Tok → Prop
  | _, [] => True
  | i, t :: ts => (t.kind = .tdedent → 0 ≤ i - 1) ∧ noUnder (i + tdelta t) ts

/-- `junkOk i l`: the scanner loop of `find_class_or_function`, entered
with depth `i`, plainly skips every token of `l`: no `class`/`def`/
`__all__` name and no depth underflow. -/
def junkOk : Int → List Tok → Prop
  | _, [] => True
  | i, t :: ts =>
    (t.kind = .tname → t.lex ≠ S "class" ∧ t.lex ≠ S "def" ∧ t.lex ≠ S "__all__") ∧
    (t.kind = .tdedent → 0 ≤ i - 1) ∧ junkOk (i + tdelta t) ts

/-- The `last_item` value after additionally consuming `consumed`. -/
def lastOf (l : Option Tok) (consumed : List Tok) : Option Tok :=
  match consumed.getLast? with
  | some t => some t
  | none => l

/-- The token stream handed to `doc_class` (its class name onward) for a
class `A` with docstring `dA` whose body contains one nested class `B`
(docstring `dB`) holding two function definitions. -/
def c9Toks (A dA B dB : Str) (m1 m2 : Df) (rest : List Tok) : List Tok :=
  nmTok A :: opTok (S ":") :: nlTok :: indTok :: strTok (tq ++ dA ++ tq) :: nlTok ::
  nmTok (S "class") :: nmTok B :: opTok (S ":") :: nlTok :: indTok ::
    strTok (tq ++ dB ++ tq) :: nlTok ::
  (defToks m1 ++ defToks m2 ++ dedTok :: dedTok :: rest)

/-- The heading line rendered for a method of class `cls` (escaped). -/
def methodLine (mod cls : Str) (d : Df) : Str :=
  S "##### " ++ mod ++ S "." ++ cls ++ S "." ++ S "**" ++
    replace1 '_' (S "\\_") d.fname ++ S "**" ++ S "(" ++ S ")"

/-- The block a simple definition contributes as a method of class
`cls`: its heading line followed by its docstring, if any. -/
def methodBlock (mod cls : Str) (d : Df) : Str :=
  pyJoin (S "\n") (stackPush (defDoc d) [methodLine mod cls d])

/-- Character-level restrictions under which docstring normalization is
the identity: no underscore, line break, HTML-special or quote
character anywhere, and no leading whitespace. -/
def plainDoc (s : Str) : Prop :=
  (∀ c ∈ s, c ≠ '_' ∧ c ≠ '\n' ∧ c ≠ '\r' ∧ c ≠ '&' ∧ c ≠ '<' ∧ c ≠ '>' ∧
    c ≠ '\'' ∧ c ≠ '"') ∧
  (∀ c, s.head? = some c → c ≠ ' ' ∧ c ≠ '\t')

/-- The demonstration module for the export-list property: an
`__all__ = ['go', 'stop']` assignment followed by a documented `go` and
an undocumented `stop`. -/
def demoToks : List Tok :=
  [nmTok (S "__all__"), opTok (S "="), opTok (S "["), strTok (S "'go'"), opTok (S ","),
    strTok (S "'stop'"), opTok (S "]"), nlTok,
   nmTok (S "def"), nmTok (S "go"), opTok (S "("), nmTok (S "self"), opTok (S ","),
    nmTok (S "x"), opTok (S ")"), opTok (S ":"), nlTok, indTok,
    strTok (S "'''Does it'''"), nlTok, nmTok (S "pass"), nlTok, dedTok,
   nmTok (S "def"), nmTok (S "stop"), opTok (S "("), opTok (S ")"), opTok (S ":"), nlTok,
    indTok, nmTok (S "pass"), nlTok, dedTok]

/-- The initial parse state `DocModule.__init__` builds for a module
named `m` over the given tokens, with `IGNORE_UNDOCUMENTED` set. -/
def demoSt (toks : List Tok) : PSt :=
  { cur := ⟨false, none, toks⟩, all_list := [], current_module := S "m",
    current_class := [], ignore_undoc := true, has_classes_title := false }

/-- The token stream a pending `Option Df` junk prefix contributes
(the unconsumed body of a discarded private definition). -/
def preToks (j : Option Df) : List Tok :=
  match j with
  | none => []
  | some d => defBody d

/-- Length of that prefix. -/
def bodyLen (j : Option Df) : Nat :=
  match j with
  | none => 0
  | some d => (defBody d).length

/-- Loop fuel consumed by the member loop on one simple definition. -/
def dfCost (d : Df) : Nat :=
  if pyStartswith (S "_") d.fname = true ∧ d.fname ≠ S "__init__"
  then (defBody d).length + 2 else 10

/-- Loop fuel consumed by the member loop on a list of definitions. -/
def loopCost : List Df → Nat
  | [] => 2
  | d :: ds => dfCost d + loopCost ds

/-!
## Basic lemmas
-/

theorem isPre_app (l r : Str) : pyStartswith l (l ++ r) = true := by
  induction l with
  | nil => simp [pyStartswith, List.isPrefixOf]
  | cons c t ih =>
    simp only [pyStartswith, List.cons_append, List.isPrefixOf, beq_self_eq_true,
      Bool.true_and] at ih ⊢
    exact ih

theorem pnext_eq (st : PSt) (t : Tok) (ts : List Tok)
    (hfl : st.cur.flag = false) (htk : st.cur.toks = t :: ts) :
    pnext st = some (t, { st with cur := ⟨false, some t, ts⟩ }) := by
  simp [pnext, Cur.next, hfl, htk]

theorem pnext_nil (st : PSt) (hfl : st.cur.flag = false) (htk : st.cur.toks = []) :
    pnext st = none := by
  simp [pnext, Cur.next, hfl, htk]

/-!
## Claim C1
-/

/-- Claim C1: for every definition whose name begins with the
private-marker underscore and is not `__init__`, `doc_function` returns
no node — for any state, hence for any docstring presence, any export
list and any `IGNORE_UNDOCUMENTED` setting, for methods and functions
alike, and even with no fuel at all. -/
theorem c1_private_def_returns_none (fuel : Nat) (m : Bool) (st : PSt) (t : Tok)
    (rest : List Tok) (hfl : st.cur.flag = false) (htk : st.cur.toks = t :: rest)
    (hund : pyStartswith (S "_") t.lex = true) (hini : t.lex ≠ S "__init__") :
    ∃ st', doc_function fuel m st = .ok none st' := by
  refine ⟨{ st with cur := ⟨false, some t, rest⟩ }, ?_⟩
  rw [doc_function, doc_function_core, pnext_eq st t rest hfl htk]
  simp [doc_function_filter, hund, hini]

/-- Witness for C1 at a concrete private method `_x` with a docstring,
an active export list containing it, and `IGNORE_UNDOCUMENTED` unset. -/
theorem c1_witness :
    ∃ st', doc_function 0 true
      ⟨⟨false, none, [⟨.tname, S "_x"⟩, opTok (S "("), opTok (S ")"), opTok (S ":"), nlTok,
        indTok, strTok (S "'''doc'''"), nlTok, dedTok]⟩,
        [S "_x"], S "m", [], false, false⟩ = .ok none st' :=
  c1_private_def_returns_none 0 true _ ⟨.tname, S "_x"⟩ _ rfl rfl (by decide) (by decide)

/-!
## Claim C6
-/

/-- Counterexample for C6: discarding the private method `_h` leaves the
whole signature, docstring and body unconsumed — the cursor does not end
past the definition's body as the claim states. -/
theorem c6_counterexample :
    doc_function 50 true
      ⟨⟨false, none, [⟨.tname, S "_h"⟩, opTok (S "("), nmTok (S "self"), opTok (S ")"),
        opTok (S ":"), nlTok, indTok, strTok (S "'''secret'''"), nlTok, nmTok (S "pass"),
        nlTok, dedTok]⟩, [], S "m", [], true, false⟩ =
      .ok none
      ⟨⟨false, some ⟨.tname, S "_h"⟩, [opTok (S "("), nmTok (S "self"), opTok (S ")"),
        opTok (S ":"), nlTok, indTok, strTok (S "'''secret'''"), nlTok, nmTok (S "pass"),
        nlTok, dedTok]⟩, [], S "m", [], true, false⟩ := by
  decide

/-- Claim C6, amended: when `doc_function` discards a private
definition it returns immediately after reading the name token — it
consumes no signature tokens, performs no docstring scan and does not
skip the body; the cursor is left right after the name. -/
theorem c6_private_def_consumes_only_name (fuel : Nat) (m : Bool) (st : PSt) (t : Tok)
    (rest : List Tok) (hfl : st.cur.flag = false) (htk : st.cur.toks = t :: rest)
    (hund : pyStartswith (S "_") t.lex = true) (hini : t.lex ≠ S "__init__") :
    doc_function fuel m st = .ok none { st with cur := ⟨false, some t, rest⟩ } := by
  rw [doc_function, doc_function_core, pnext_eq st t rest hfl htk]
  simp [doc_function_filter, hund, hini]

/-- Witness for the amended C6 at a concrete private function. -/
theorem c6_witness :
    doc_function 3 false
      ⟨⟨false, none, [⟨.tname, S "_go"⟩, opTok (S "(")]⟩, [], S "m", [], true, false⟩ =
      .ok none
      ⟨⟨false, some ⟨.tname, S "_go"⟩, [opTok (S "(")]⟩, [], S "m", [], true, false⟩ :=
  c6_private_def_consumes_only_name 3 false _ ⟨.tname, S "_go"⟩ _ rfl rfl
    (by decide) (by decide)

/-!
## Claim C7
-/

/-- Counterexample for C7: a second `rollback()` with no intervening
`advance()` is silently accepted — it raises nothing and leaves the
cursor in exactly the state of a single rollback, at this concrete
cursor. -/
theorem c7_counterexample :
    Cur.rollback (Cur.rollback ⟨false, some ⟨.tname, S "x"⟩, [nlTok]⟩) =
      Cur.rollback ⟨false, some ⟨.tname, S "x"⟩, [nlTok]⟩ := by
  decide

/-- Claim C7, amended: `rollback()` only sets the class-level flag, so a
second rollback before an intervening `advance()` is a silent no-op (the
state equals that after a single rollback); no assertion or exception
occurs anywhere in `rollback`. -/
theorem c7_double_rollback_noop (c : Cur) :
    Cur.rollback (Cur.rollback c) = Cur.rollback c := rfl

/-!
## Claim C8
-/

/-- Claim C8: if the first collected parameter token is `self`, the
signature pipeline removes it together with the immediately following
token, whatever that token is; and `is_method` cannot influence this,
since `doc_function` factors as the `is_method`-independent core
(which applies `elide_self`) followed by the final filter, the only
consumer of `is_method`. -/
theorem c8_self_elision :
    (∀ (x : Str) (rest : List Str), elide_self (S "self" :: x :: rest) = rest) ∧
    elide_self [S "self"] = [] ∧
    (∀ (fuel : Nat) (m : Bool) (st : PSt),
      doc_function fuel m st = doc_function_filter m (doc_function_core fuel st)) := by
  refine ⟨?_, by decide, fun _ _ _ => rfl⟩
  intro x rest
  simp [elide_self]

/-!
## Claim C10
-/

/-- Counterexample for C10: on the Name token `__all__` with the stream
otherwise exhausted, `find_docstring` does not return "no docstring" —
the export-list capture it delegates to raises `StopIteration`. -/
theorem c10_counterexample :
    find_docstring 10 ⟨⟨false, none, [nmTok (S "__all__")]⟩, [], S "m", [], true, false⟩ =
      .sig .eos ⟨⟨false, some (nmTok (S "__all__")), []⟩, [], S "m", [], true, false⟩ := by
  decide

/-- Claim C10, amended: `find_docstring` ends its scan at the first Name
token: `class`/`def` is rolled back and `''` is returned; the name
`__all__` first delegates to the export-list capture (returning `''`
only if the capture succeeds, and propagating its end-of-stream signal
otherwise); any other Name is consumed without rollback and `''` is
returned. -/
theorem c10_name_token_behaviour (fuel : Nat) (st : PSt) (t : Tok) (rest : List Tok)
    (hfl : st.cur.flag = false) (htk : st.cur.toks = t :: rest) (hk : t.kind = .tname) :
    (t.lex = S "class" ∨ t.lex = S "def" →
      find_docstring (fuel + 1) st = .ok [] { st with cur := ⟨true, some t, rest⟩ }) ∧
    (t.lex = S "__all__" →
      find_docstring (fuel + 1) st =
        (match get_all_list fuel { st with cur := ⟨false, some t, rest⟩ } with
         | .ok _ st'' => .ok [] st''
         | .sig s st'' => .sig s st'')) ∧
    (t.lex ≠ S "class" → t.lex ≠ S "def" → t.lex ≠ S "__all__" →
      find_docstring (fuel + 1) st = .ok [] { st with cur := ⟨false, some t, rest⟩ }) := by
  have hp := pnext_eq st t rest hfl htk
  refine ⟨?_, ?_, ?_⟩
  · intro h
    simp [find_docstring, hp, hk, h, prollback, Cur.rollback]
  · intro h
    have hcd : ¬ (S "__all__" = S "class" ∨ S "__all__" = S "def") := by decide
    simp [find_docstring, hp, hk, h, hcd]
  · intro h1 h2 h3
    simp [find_docstring, hp, hk, h1, h2, h3]

/-- Witness for the amended C10: an ordinary Name token (a variable
name) is consumed without rollback and `''` comes back. -/
theorem c10_witness :
    find_docstring 5 ⟨⟨false, none, [nmTok (S "x"), opTok (S "=")]⟩, [], S "m", [], true, false⟩ =
      .ok [] ⟨⟨false, some (nmTok (S "x")), [opTok (S "=")]⟩, [], S "m", [], true, false⟩ :=
  (c10_name_token_behaviour 4 _ (nmTok (S "x")) _ rfl rfl rfl).2.2
    (by decide) (by decide) (by decide)

/-!
## Claim C5
-/

/-- Counterexample for C5: a single-quoted string literal appearing as
the first non-structural token is not treated as the docstring — it is
skipped, the following `def` ends the scan, and "no docstring" (`''`)
is returned. -/
theorem c5_counterexample :
    find_docstring 10
      ⟨⟨false, none, [strTok (S "'hi'"), nmTok (S "def")]⟩, [], S "m", [], true, false⟩ =
      .ok [] ⟨⟨true, some (nmTok (S "def")), []⟩, [], S "m", [], true, false⟩ := by
  decide

/-- Claim C5, amended: a string-literal token in first non-structural
position is taken as the docstring exactly when its lexeme starts with a
triple quote (`'''` or `\"\"\"`); any other string literal — single- or
double-quoted — is skipped and the scan continues. -/
theorem c5_docstring_quoting (fuel : Nat) (st : PSt) (t : Tok) (rest : List Tok)
    (hfl : st.cur.flag = false) (htk : st.cur.toks = t :: rest) (hk : t.kind = .tstr) :
    (pyStartswith (S "'''") t.lex = true ∨ pyStartswith (S "\"\"\"") t.lex = true →
      find_docstring (fuel + 1) st =
        .ok (normalize_docstring t.lex) { st with cur := ⟨false, some t, rest⟩ }) ∧
    (pyStartswith (S "'''") t.lex = false → pyStartswith (S "\"\"\"") t.lex = false →
      find_docstring (fuel + 1) st =
        find_docstring fuel { st with cur := ⟨false, some t, rest⟩ }) := by
  have hp := pnext_eq st t rest hfl htk
  have hn : ¬ t.kind = .tname := by rw [hk]; decide
  constructor
  · intro h
    simp [find_docstring, hp, hn, hk, h]
  · intro h1 h2
    simp [find_docstring, hp, hn, hk, h1, h2]

/-- Witness for the amended C5: a triple-quoted token is taken as the
docstring. -/
theorem c5_witness :
    find_docstring 3 ⟨⟨false, none, [strTok (S "'''Doc'''")]⟩, [], S "m", [], true, false⟩ =
      .ok (normalize_docstring (S "'''Doc'''"))
        ⟨⟨false, some (strTok (S "'''Doc'''")), []⟩, [], S "m", [], true, false⟩ :=
  (c5_docstring_quoting 2 _ (strTok (S "'''Doc'''")) _ rfl rfl rfl).1 (Or.inl (by decide))

/-!
## Claim C4
-/

theorem replace1_id (p : Char) (r : Str) (s : Str) (h : p ∉ s) : replace1 p r s = s := by
  induction s with
  | nil => rfl
  | cons c t ih =>
    have h1 : ¬ c = p := fun hc => h (by rw [hc]; exact List.mem_cons_self _ _)
    have h2 : p ∉ t := fun hm => h (List.mem_cons_of_mem c hm)
    rw [replace1, if_neg h1, ih h2]

theorem replace2_id (p q : Char) (r : Str) (s : Str) (h : q ∉ s) : replace2 p q r s = s := by
  induction s with
  | nil => rfl
  | cons c t ih =>
    cases t with
    | nil => rfl
    | cons c2 t2 =>
      have h2 : q ∉ c2 :: t2 := fun hm => h (List.mem_cons_of_mem c hm)
      have hc2 : ¬ (c = p ∧ c2 = q) := by
        rintro ⟨-, rfl⟩
        exact h2 (List.mem_cons_self _ _)
      rw [replace2, if_neg hc2, ih h2]

theorem uqGo_id (s : Str) (h : '_' ∉ s) :
    uqGo none s = s ∧ ∀ acc, '_' ∉ acc → uqGo (some acc) s = '`' :: acc.reverse ++ s := by
  induction s with
  | nil =>
    exact ⟨rfl, fun acc _ => by simp [uqGo]⟩
  | cons c t ih =>
    have h2 : '_' ∉ t := fun hm => h (List.mem_cons_of_mem c hm)
    have hc : c ≠ '_' := fun hc => h (by rw [← hc]; exact List.mem_cons_self _ _)
    obtain ⟨ih1, ih2⟩ := ih h2
    constructor
    · by_cases hb : c = '`'
      · subst hb
        rw [show uqGo none ('`' :: t) = uqGo (some []) t from by rw [uqGo]; simp]
        rw [ih2 [] (by simp)]
        simp
      · rw [show uqGo none (c :: t) = c :: uqGo none t from by rw [uqGo]; simp [hb]]
        rw [ih1]
    · intro acc hacc
      by_cases hb : c = '`'
      · subst hb
        rw [show uqGo (some acc) ('`' :: t) =
            ('`' :: replace2 '\\' '_' (S "_") acc.reverse ++ ['`']) ++ uqGo none t from by
          rw [uqGo]; simp]
        rw [replace2_id _ _ _ _ (by simp [hacc]), ih1]
        simp
      · rw [show uqGo (some acc) (c :: t) = uqGo (some (c :: acc)) t from by
          rw [uqGo]; simp [hb]]
        rw [ih2 (c :: acc) (by
          intro hm
          rcases List.mem_cons.mp hm with h' | h'
          · exact hc h'.symm
          · exact hacc h')]
        simp

theorem pyStrip_id (cs s : Str) (h : ∀ c ∈ s, c ∉ cs) : pyStrip cs s = s := by
  have hds : ∀ (l : Str), (∀ c ∈ l, c ∉ cs) → l.dropWhile (fun c => decide (c ∈ cs)) = l := by
    intro l hl
    cases l with
    | nil => rfl
    | cons a b => simp [List.dropWhile_cons, hl a (List.mem_cons_self _ _)]
  rw [pyStrip, hds s h,
    hds s.reverse (fun c hc => h c (List.mem_reverse.mp hc)), List.reverse_reverse]

theorem pySplitlines_single (s : Str) (hs : s ≠ []) (h : ∀ c ∈ s, c ≠ '\n' ∧ c ≠ '\r') :
    pySplitlines s = [s] := by
  induction s with
  | nil => exact absurd rfl hs
  | cons c t ih =>
    have hc := h c (List.mem_cons_self _ _)
    have ht : ∀ c ∈ t, c ≠ '\n' ∧ c ≠ '\r' := fun x hx => h x (List.mem_cons_of_mem c hx)
    cases t with
    | nil => simp [pySplitlines, hc.1, hc.2]
    | cons c2 t2 =>
      have hih := ih (by simp) ht
      simp [pySplitlines, hc.1, hc.2, hih]

theorem pyJoin_single (sep : Str) (s : Str) : pyJoin sep [s] = s := by
  simp [pyJoin, List.intercalate]

/-- Docstring normalization is the identity on `plainDoc` strings. -/
theorem normalize_id (s : Str) (h : plainDoc s) : normalize_docstring s = s := by
  obtain ⟨hall, hhead⟩ := h
  have hstrip1 : pyStrip (S "'''") s = s := by
    apply pyStrip_id
    intro c hc hm
    obtain ⟨-, -, -, -, -, -, h7, -⟩ := hall c hc
    rw [show S "'''" = ['\'', '\'', '\''] from rfl] at hm
    simp at hm
    exact h7 hm
  have hstrip2 : pyStrip (S "\"\"\"") s = s := by
    apply pyStrip_id
    intro c hc hm
    obtain ⟨-, -, -, -, -, -, -, h8⟩ := hall c hc
    rw [show S "\"\"\"" = ['"', '"', '"'] from rfl] at hm
    simp at hm
    exact h8 hm
  have hstrip3 : pyStrip (S "\r\n") s = s := by
    apply pyStrip_id
    intro c hc hm
    obtain ⟨-, h2, h3, -⟩ := hall c hc
    rw [show S "\r\n" = ['\r', '\n'] from rfl] at hm
    simp at hm
    rcases hm with h' | h'
    · exact h3 h'
    · exact h2 h'
  have hrepl : replace1 '_' (S "\\_") s = s :=
    replace1_id _ _ _ (fun hm => (hall _ hm).1 rfl)
  have hnl : '\n' ∉ s := fun hm => (hall _ hm).2.1 rfl
  have hamp : '&' ∉ s := fun hm => (hall _ hm).2.2.2.1 rfl
  have hlt : '<' ∉ s := fun hm => (hall _ hm).2.2.2.2.1 rfl
  have hgt : '>' ∉ s := fun hm => (hall _ hm).2.2.2.2.2.1 rfl
  have huq : unquote_code s = s := (uqGo_id s (fun hm => (hall _ hm).1 rfl)).1
  cases hs : s with
  | nil => rfl
  | cons c t =>
    have htw : s.takeWhile (fun c => decide (c = ' ' ∨ c = '\t')) = [] := by
      rw [hs, List.takeWhile_cons]
      have := hhead c (by rw [hs]; rfl)
      simp [this.1, this.2]
    have hsl : pySplitlines s = [s] :=
      pySplitlines_single s (by rw [hs]; simp) (fun x hx => ⟨(hall x hx).2.1, (hall x hx).2.2.1⟩)
    rw [← hs]
    show cgi_escape (replace1 '\n' (S "  \n") (unquote_code (pyJoin (S "\n")
      ((pySplitlines (replace1 '_' (S "\\_") (pyStrip (S "\r\n") (pyStrip (S "\"\"\"")
        (pyStrip (S "'''") s))))).map (List.drop ((replace1 '_' (S "\\_") (pyStrip (S "\r\n")
        (pyStrip (S "\"\"\"") (pyStrip (S "'''") s)))).takeWhile
          (fun c => c = ' ' ∨ c = '\t')).length))))) = s
    rw [hstrip1, hstrip2, hstrip3, hrepl]
    have htw' : (s.takeWhile (fun c => c = ' ' ∨ c = '\t')).length = 0 := by
      have : (s.takeWhile (fun c => decide (c = ' ' ∨ c = '\t'))) =
          (s.takeWhile (fun c => c = ' ' ∨ c = '\t')) := rfl
      rw [← this, htw]
      rfl
    rw [htw', hsl]
    simp only [List.map, List.drop_zero]
    rw [pyJoin_single, huq, replace1_id _ _ _ hnl]
    rw [cgi_escape, replace1_id _ _ _ hamp, replace1_id _ _ _ hlt, replace1_id _ _ _ hgt]

/-- Counterexample for C4: the already-normalized docstring of
`'''Hi_there'''` is `Hi\_there`; running the normalization pipeline on
it again re-escapes the escaped underscore, yielding `Hi\\_there`. -/
theorem c4_counterexample :
    normalize_docstring (normalize_docstring (S "'''Hi_there'''")) ≠
      normalize_docstring (S "'''Hi_there'''") := by
  decide

/-- Claim C4, amended: normalization is not idempotent in general (the
underscore-escaping, hard-break and HTML-escaping passes each re-apply);
it is idempotent — indeed the identity — on normalized docstrings that
contain no underscore (escaped or not), no line break, no HTML-special
character (`&`, `<`, `>`), no quote character, and no leading
whitespace. -/
theorem c4_normalization_idempotent_on_plain (s : Str) (h : plainDoc s) :
    normalize_docstring (normalize_docstring s) = normalize_docstring s ∧
    normalize_docstring s = s := by
  have hid := normalize_id s h
  rw [hid]
  exact ⟨hid, rfl⟩

/-- Witness for the amended C4 on a concrete plain docstring. -/
theorem c4_witness :
    plainDoc (S "Hello world.") ∧
    normalize_docstring (normalize_docstring (S "Hello world.")) =
      normalize_docstring (S "Hello world.") := by
  have hp : plainDoc (S "Hello world.") := by
    constructor
    · decide
    · decide
  exact ⟨hp, (c4_normalization_idempotent_on_plain _ hp).1⟩

/-!
## Claim C3
-/

/-- Full characterization of `exit_block` on a stream longer than the
fuel bound: it either returns normally at the first dedent that would
drive the depth counter below zero, having consumed that dedent, or
consumes the entire stream (counter never underflowing) and signals end
of stream. -/
theorem exit_block_spec : ∀ (ts : List Tok) (fuel : Nat) (i : Int) (st : PSt),
    st.cur.flag = false → st.cur.toks = ts → ts.length < fuel →
    (∃ pre t rest, ts = pre ++ t :: rest ∧ t.kind = .tdedent ∧ noUnder i pre ∧
      i + tnet pre - 1 < 0 ∧
      exit_block fuel i st = .ok () { st with cur := ⟨false, some t, rest⟩ }) ∨
    (noUnder i ts ∧ ∃ st', exit_block fuel i st = .sig .eos st' ∧ st'.cur.toks = []) := by
  intro ts
  induction ts with
  | nil =>
    intro fuel i st hfl htk hlen
    cases fuel with
    | zero => simp at hlen
    | succ f =>
      right
      refine ⟨trivial, st, ?_, htk⟩
      rw [exit_block, pnext_nil st hfl htk]
  | cons t ts' ih =>
    intro fuel i st hfl htk hlen
    cases fuel with
    | zero => simp at hlen
    | succ f =>
      have hp := pnext_eq st t ts' hfl htk
      have hlen' : ts'.length < f := by
        simp only [List.length_cons] at hlen
        omega
      have htn : ∀ pre : List Tok, tnet (t :: pre) = tdelta t + tnet pre := by
        intro pre
        simp [tnet]
      by_cases hk1 : t.kind = .tindent
      · have hd : tdelta t = 1 := by simp [tdelta, hk1]
        have hstep : exit_block (f + 1) i st =
            exit_block f (i + 1) { st with cur := ⟨false, some t, ts'⟩ } := by
          rw [exit_block, hp]
          simp [hk1]
        rcases ih f (i + 1) { st with cur := ⟨false, some t, ts'⟩ } rfl rfl hlen' with
          ⟨pre, u, rest, hsplit, hku, hnu, hlt, heq⟩ | ⟨hnu, st', heq, hemp⟩
        · left
          refine ⟨t :: pre, u, rest, by rw [hsplit, List.cons_append], hku, ?_, ?_, ?_⟩
          · refine ⟨fun h => ?_, ?_⟩
            · rw [hk1] at h
              cases h
            · rw [hd]
              exact hnu
          · rw [htn pre, hd]
            omega
          · rw [hstep, heq]
        · right
          refine ⟨⟨fun h => ?_, ?_⟩, st', ?_, hemp⟩
          · rw [hk1] at h
            cases h
          · rw [hd]
            exact hnu
          · rw [hstep, heq]
      · by_cases hk2 : t.kind = .tdedent
        · have hd : tdelta t = -1 := by simp [tdelta, hk1, hk2]
          by_cases hneg : i - 1 < 0
          · left
            refine ⟨[], t, ts', rfl, hk2, trivial, ?_, ?_⟩
            · have : tnet ([] : List Tok) = 0 := by simp [tnet]
              rw [this]
              omega
            · rw [exit_block, hp]
              simp [hk1, hk2, hneg]
          · have hstep : exit_block (f + 1) i st =
                exit_block f (i - 1) { st with cur := ⟨false, some t, ts'⟩ } := by
              rw [exit_block, hp]
              simp [hk1, hk2, hneg]
            rcases ih f (i - 1) { st with cur := ⟨false, some t, ts'⟩ } rfl rfl hlen' with
              ⟨pre, u, rest, hsplit, hku, hnu, hlt, heq⟩ | ⟨hnu, st', heq, hemp⟩
            · left
              refine ⟨t :: pre, u, rest, by rw [hsplit, List.cons_append], hku, ?_, ?_, ?_⟩
              · refine ⟨fun _ => by omega, ?_⟩
                rw [hd]
                have : i + -1 = i - 1 := by omega
                rw [this]
                exact hnu
              · rw [htn pre, hd]
                omega
              · rw [hstep, heq]
            · right
              refine ⟨⟨fun _ => by omega, ?_⟩, st', ?_, hemp⟩
              · rw [hd]
                have : i + -1 = i - 1 := by omega
                rw [this]
                exact hnu
              · rw [hstep, heq]
        · have hd : tdelta t = 0 := by simp [tdelta, hk1, hk2]
          have hstep : exit_block (f + 1) i st =
              exit_block f i { st with cur := ⟨false, some t, ts'⟩ } := by
            rw [exit_block, hp]
            simp [hk1, hk2]
          rcases ih f i { st with cur := ⟨false, some t, ts'⟩ } rfl rfl hlen' with
            ⟨pre, u, rest, hsplit, hku, hnu, hlt, heq⟩ | ⟨hnu, st', heq, hemp⟩
          · left
            refine ⟨t :: pre, u, rest, by rw [hsplit, List.cons_append], hku, ?_, ?_, ?_⟩
            · refine ⟨fun h => absurd h hk2, ?_⟩
              rw [hd]
              have : i + 0 = i := by omega
              rw [this]
              exact hnu
            · rw [htn pre, hd]
              omega
            · rw [hstep, heq]
          · right
            refine ⟨⟨fun h => absurd h hk2, ?_⟩, st', ?_, hemp⟩
            · rw [hd]
              have : i + 0 = i := by omega
              rw [this]
              exact hnu
            · rw [hstep, heq]

/-- Claim C3: started with depth 0, the block scanner yields a result on
every finite token stream (any fuel beyond the stream length suffices,
so the loop terminates): it returns normally exactly when it meets a
dedent that would make the depth counter negative — that dedent already
consumed — and otherwise consumes the whole stream and ends through the
end-of-stream signal. -/
theorem c3_block_scanner (st : PSt) (fuel : Nat) (hfl : st.cur.flag = false)
    (hfu : st.cur.toks.length < fuel) :
    (∃ pre t rest, st.cur.toks = pre ++ t :: rest ∧ t.kind = .tdedent ∧ noUnder 0 pre ∧
      tnet pre - 1 < 0 ∧
      exit_block fuel 0 st = .ok () { st with cur := ⟨false, some t, rest⟩ }) ∨
    (noUnder 0 st.cur.toks ∧
      ∃ st', exit_block fuel 0 st = .sig .eos st' ∧ st'.cur.toks = []) := by
  rcases exit_block_spec st.cur.toks fuel 0 st hfl rfl hfu with
    ⟨pre, t, rest, h1, h2, h3, h4, h5⟩ | h
  · left
    exact ⟨pre, t, rest, h1, h2, h3, by omega, h5⟩
  · right
    exact h

/-- Witness for C3 on a concrete stream whose dedent closes the
enclosing block. -/
theorem c3_witness :
    (∃ pre t rest, (demoSt [nlTok, dedTok, nlTok]).cur.toks = pre ++ t :: rest ∧
      t.kind = .tdedent ∧ noUnder 0 pre ∧ tnet pre - 1 < 0 ∧
      exit_block 4 0 (demoSt [nlTok, dedTok, nlTok]) =
        .ok () { demoSt [nlTok, dedTok, nlTok] with cur := ⟨false, some t, rest⟩ }) ∨
    (noUnder 0 (demoSt [nlTok, dedTok, nlTok]).cur.toks ∧
      ∃ st', exit_block 4 0 (demoSt [nlTok, dedTok, nlTok]) = .sig .eos st' ∧
        st'.cur.toks = []) :=
  c3_block_scanner (demoSt [nlTok, dedTok, nlTok]) 4 rfl (by decide)

/-!
## Small-step lemmas for the scanner loops
-/

theorem fd_step_skip (fuel : Nat) (st : PSt) (t : Tok) (ts : List Tok)
    (hfl : st.cur.flag = false) (htk : st.cur.toks = t :: ts)
    (hn : ¬ t.kind = .tname)
    (hs : ¬ (t.kind = .tstr ∧ (pyStartswith (S "'''") t.lex = true ∨
      pyStartswith (S "\"\"\"") t.lex = true))) :
    find_docstring (fuel + 1) st = find_docstring fuel { st with cur := ⟨false, some t, ts⟩ } := by
  rw [show fuel + 1 = fuel + 1 from rfl]
  simp only [find_docstring, pnext_eq st t ts hfl htk]
  simp [hn, hs]

theorem fd_step_str (fuel : Nat) (st : PSt) (t : Tok) (ts : List Tok)
    (hfl : st.cur.flag = false) (htk : st.cur.toks = t :: ts)
    (hk : t.kind = .tstr)
    (h3 : pyStartswith (S "'''") t.lex = true ∨ pyStartswith (S "\"\"\"") t.lex = true) :
    find_docstring (fuel + 1) st =
      .ok (normalize_docstring t.lex) { st with cur := ⟨false, some t, ts⟩ } := by
  have hn : ¬ t.kind = .tname := by rw [hk]; decide
  simp only [find_docstring, pnext_eq st t ts hfl htk]
  simp [hn, hk, h3]

theorem fd_step_name (fuel : Nat) (st : PSt) (t : Tok) (ts : List Tok)
    (hfl : st.cur.flag = false) (htk : st.cur.toks = t :: ts)
    (hk : t.kind = .tname) (h1 : t.lex ≠ S "class") (h2 : t.lex ≠ S "def")
    (h3 : t.lex ≠ S "__all__") :
    find_docstring (fuel + 1) st = .ok [] { st with cur := ⟨false, some t, ts⟩ } := by
  simp only [find_docstring, pnext_eq st t ts hfl htk]
  simp [hk, h1, h2, h3]

theorem fc_step_push (fuel : Nat) (acc : List Str) (st : PSt) (t : Tok) (ts : List Tok)
    (hfl : st.cur.flag = false) (htk : st.cur.toks = t :: ts)
    (hnc : ¬ (t.kind = .top ∧ t.lex = S ":")) :
    find_colons (fuel + 1) acc st =
      find_colons fuel (stackPush t.lex acc) { st with cur := ⟨false, some t, ts⟩ } := by
  simp only [find_colons, pnext_eq st t ts hfl htk]
  simp [hnc]

theorem fc_step_colon (fuel : Nat) (acc : List Str) (st : PSt) (ts : List Tok)
    (hfl : st.cur.flag = false) (htk : st.cur.toks = opTok (S ":") :: ts) :
    find_colons (fuel + 1) acc st =
      .ok (pySlice1m2 (stackPush (S ":") acc))
        { st with cur := ⟨false, some (opTok (S ":")), ts⟩ } := by
  simp only [find_colons, pnext_eq st (opTok (S ":")) ts hfl htk]
  have hy : (opTok (S ":")).kind = .top ∧ (opTok (S ":")).lex = S ":" := by decide
  have hne : stackPush (S ":") acc ≠ [] := by
    rw [stackPush]
    split
    · next h => cases h
    · simp
  simp [hy, hne]

theorem eb_step_skip (fuel : Nat) (i : Int) (st : PSt) (t : Tok) (ts : List Tok)
    (hfl : st.cur.flag = false) (htk : st.cur.toks = t :: ts)
    (h1 : ¬ t.kind = .tindent) (h2 : ¬ t.kind = .tdedent) :
    exit_block (fuel + 1) i st = exit_block fuel i { st with cur := ⟨false, some t, ts⟩ } := by
  simp only [exit_block, pnext_eq st t ts hfl htk]
  simp [h1, h2]

theorem eb_step_exit (fuel : Nat) (i : Int) (st : PSt) (t : Tok) (ts : List Tok)
    (hfl : st.cur.flag = false) (htk : st.cur.toks = t :: ts)
    (hk : t.kind = .tdedent) (hi : i - 1 < 0) :
    exit_block (fuel + 1) i st = .ok () { st with cur := ⟨false, some t, ts⟩ } := by
  have h1 : ¬ t.kind = .tindent := by rw [hk]; decide
  simp only [exit_block, pnext_eq st t ts hfl htk]
  simp [h1, hk, hi]

theorem cof_dispatch_def (oc : Nat → PSt → Out (Option Str)) (types : List Str) (m : Bool)
    (fuel : Nat) (i : Int) (st : PSt) (t : Tok) (ts : List Tok)
    (hfl : st.cur.flag = false) (htk : st.cur.toks = t :: ts)
    (hk : t.kind = .tname) (hmem : t.lex ∈ types) (hnc : t.lex ≠ S "class") :
    find_cof oc types m (fuel + 1) i st =
      doc_function fuel m { st with cur := ⟨false, some t, ts⟩ } := by
  simp only [find_cof, pnext_eq st t ts hfl htk]
  simp [hk, hmem, hnc]

theorem cof_dispatch_class (oc : Nat → PSt → Out (Option Str)) (types : List Str) (m : Bool)
    (fuel : Nat) (i : Int) (st : PSt) (ts : List Tok)
    (hfl : st.cur.flag = false) (htk : st.cur.toks = nmTok (S "class") :: ts)
    (hmem : S "class" ∈ types) :
    find_cof oc types m (fuel + 1) i st =
      oc fuel { st with cur := ⟨false, some (nmTok (S "class")), ts⟩ } := by
  simp only [find_cof, pnext_eq st (nmTok (S "class")) ts hfl htk]
  have hk : (nmTok (S "class")).kind = .tname := rfl
  simp [hk, hmem, nmTok]

theorem cof_skip_name (oc : Nat → PSt → Out (Option Str)) (types : List Str) (m : Bool)
    (fuel : Nat) (i : Int) (st : PSt) (t : Tok) (ts : List Tok)
    (hfl : st.cur.flag = false) (htk : st.cur.toks = t :: ts)
    (hk : t.kind = .tname) (hmem : ¬ t.lex ∈ types) (hall : t.lex ≠ S "__all__") :
    find_cof oc types m (fuel + 1) i st =
      find_cof oc types m fuel i { st with cur := ⟨false, some t, ts⟩ } := by
  simp only [find_cof, pnext_eq st t ts hfl htk]
  simp [hk, hmem, hall]

theorem cof_skip_other (oc : Nat → PSt → Out (Option Str)) (types : List Str) (m : Bool)
    (fuel : Nat) (i : Int) (st : PSt) (t : Tok) (ts : List Tok)
    (hfl : st.cur.flag = false) (htk : st.cur.toks = t :: ts)
    (h1 : ¬ t.kind = .tname) (h2 : ¬ t.kind = .tindent) (h3 : ¬ t.kind = .tdedent) :
    find_cof oc types m (fuel + 1) i st =
      find_cof oc types m fuel i { st with cur := ⟨false, some t, ts⟩ } := by
  simp only [find_cof, pnext_eq st t ts hfl htk]
  simp [h1, h2, h3]

theorem cof_step_indent (oc : Nat → PSt → Out (Option Str)) (types : List Str) (m : Bool)
    (fuel : Nat) (i : Int) (st : PSt) (t : Tok) (ts : List Tok)
    (hfl : st.cur.flag = false) (htk : st.cur.toks = t :: ts)
    (hk : t.kind = .tindent) :
    find_cof oc types m (fuel + 1) i st =
      find_cof oc types m fuel (i + 1) { st with cur := ⟨false, some t, ts⟩ } := by
  have h1 : ¬ t.kind = .tname := by rw [hk]; decide
  simp only [find_cof, pnext_eq st t ts hfl htk]
  simp [h1, hk]

theorem cof_step_dedent_cont (oc : Nat → PSt → Out (Option Str)) (types : List Str) (m : Bool)
    (fuel : Nat) (i : Int) (st : PSt) (t : Tok) (ts : List Tok)
    (hfl : st.cur.flag = false) (htk : st.cur.toks = t :: ts)
    (hk : t.kind = .tdedent) (hi : ¬ i - 1 < 0) :
    find_cof oc types m (fuel + 1) i st =
      find_cof oc types m fuel (i - 1) { st with cur := ⟨false, some t, ts⟩ } := by
  have h1 : ¬ t.kind = .tname := by rw [hk]; decide
  have h2 : ¬ t.kind = .tindent := by rw [hk]; decide
  simp only [find_cof, pnext_eq st t ts hfl htk]
  simp [h1, h2, hk, hi]

theorem cof_step_dedent_exit (oc : Nat → PSt → Out (Option Str)) (types : List Str) (m : Bool)
    (fuel : Nat) (i : Int) (st : PSt) (t : Tok) (ts : List Tok)
    (hfl : st.cur.flag = false) (htk : st.cur.toks = t :: ts)
    (hk : t.kind = .tdedent) (hi : i - 1 < 0) :
    find_cof oc types m (fuel + 1) i st = .sig .blockExit { st with cur := ⟨false, some t, ts⟩ } := by
  have h1 : ¬ t.kind = .tname := by rw [hk]; decide
  have h2 : ¬ t.kind = .tindent := by rw [hk]; decide
  simp only [find_cof, pnext_eq st t ts hfl htk]
  simp [h1, h2, hk, hi]

theorem cof_step_eos (oc : Nat → PSt → Out (Option Str)) (types : List Str) (m : Bool)
    (fuel : Nat) (i : Int) (st : PSt)
    (hfl : st.cur.flag = false) (htk : st.cur.toks = []) :
    find_cof oc types m (fuel + 1) i st = .sig .eos st := by
  simp only [find_cof, pnext_nil st hfl htk]

theorem stackPush_ne (s : Str) (acc : List Str) (h : s ≠ []) :
    stackPush s acc = acc ++ [s] := by
  rw [stackPush, if_neg h]

theorem ne_nil_of_S_append (s : String) (a : Str) (h : S s ≠ []) : S s ++ a ≠ [] := by
  intro hc
  rcases List.append_eq_nil.mp hc with ⟨h1, -⟩
  exact h h1

/-- `doc_function` on a complete simple definition (after the `def`
keyword): it consumes the name, the `():` signature, one docstring scan
and the body through the closing dedent, and returns either the joined
heading/docstring block or `''` when the export-list or undocumented
filter rejects it. -/
theorem doc_function_on_def (fuel : Nat) (m : Bool) (st : PSt) (d : Df) (ts : List Tok)
    (hfl : st.cur.flag = false)
    (htk : st.cur.toks = nmTok d.fname :: (defBody d ++ ts))
    (hpriv : ¬ (pyStartswith (S "_") d.fname = true ∧ d.fname ≠ S "__init__")) :
    doc_function (fuel + 8) m st =
      .ok (some (
        if ((¬ m = true) ∧ st.all_list ≠ [] ∧
              ¬ (replace2 '\\' '_' (S "_") (replace1 '_' (S "\\_") d.fname)) ∈ st.all_list) ∨
            (st.ignore_undoc = true ∧ defDoc d = []) then []
        else pyJoin (S "\n") (stackPush (defDoc d)
          [S "##### " ++ st.current_module ++ S "." ++
            (if st.current_class ≠ [] then st.current_class ++ S "." else []) ++
            S "**" ++ replace1 '_' (S "\\_") d.fname ++ S "**" ++ S "(" ++ S ")"])))
        { st with cur := ⟨false, some dedTok, ts⟩ } := by
  obtain ⟨fname, doc?⟩ := d
  simp only [defBody] at htk
  rw [doc_function, doc_function_core, pnext_eq st _ _ hfl htk]
  simp only [nmTok]
  rw [if_neg hpriv]
  cases doc? with
  | some ds =>
    simp only [List.cons_append, List.append_assoc] at htk ⊢
    rw [fc_step_push (fuel + 7) [] _ (opTok (S "(")) _ rfl rfl (by decide)]
    rw [fc_step_push (fuel + 6) _ _ (opTok (S ")")) _ rfl rfl (by decide)]
    rw [fc_step_colon (fuel + 5) _ _ _ rfl rfl]
    simp only [opTok]
    rw [show pySlice1m2 (stackPush (S ":") (stackPush (S ")") (stackPush (S "(") []))) = []
      from by decide]
    rw [fd_step_skip (fuel + 7) _ nlTok _ rfl rfl (by decide) (by decide)]
    rw [fd_step_skip (fuel + 6) _ indTok _ rfl rfl (by decide) (by decide)]
    rw [fd_step_str (fuel + 5) _ (strTok (tq ++ (ds ++ tq))) _ rfl rfl rfl
      (Or.inl (isPre_app tq (ds ++ tq)))]
    simp only []
    rw [eb_step_skip (fuel + 7) 0 _ nlTok _ rfl rfl (by decide) (by decide)]
    rw [eb_step_skip (fuel + 6) 0 _ (nmTok (S "pass")) _ rfl rfl (by decide) (by decide)]
    rw [eb_step_skip (fuel + 5) 0 _ nlTok _ rfl rfl (by decide) (by decide)]
    rw [eb_step_exit (fuel + 4) 0 _ dedTok _ rfl rfl rfl (by decide)]
    simp only [doc_function_filter, defDoc, elide_self]
    rw [show build_arg_string [] = [] from by decide]
    have hne : ∀ (a : Str), S "##### " ++ a ≠ [] := fun a => ne_nil_of_S_append _ _ (by decide)
    simp [stackPush, hne, List.append_assoc, strTok,
      show pyJoin (S "\n") ([] : List Str) = [] from rfl]
    split <;> rfl
  | none =>
    simp only [List.cons_append, List.append_assoc, List.nil_append] at htk ⊢
    rw [fc_step_push (fuel + 7) [] _ (opTok (S "(")) _ rfl rfl (by decide)]
    rw [fc_step_push (fuel + 6) _ _ (opTok (S ")")) _ rfl rfl (by decide)]
    rw [fc_step_colon (fuel + 5) _ _ _ rfl rfl]
    simp only [opTok]
    rw [show pySlice1m2 (stackPush (S ":") (stackPush (S ")") (stackPush (S "(") []))) = []
      from by decide]
    rw [fd_step_skip (fuel + 7) _ nlTok _ rfl rfl (by decide) (by decide)]
    rw [fd_step_skip (fuel + 6) _ indTok _ rfl rfl (by decide) (by decide)]
    rw [fd_step_name (fuel + 5) _ (nmTok (S "pass")) _ rfl rfl rfl (by decide) (by decide)
      (by decide)]
    simp only []
    rw [eb_step_skip (fuel + 7) 0 _ nlTok _ rfl rfl (by decide) (by decide)]
    rw [eb_step_exit (fuel + 6) 0 _ dedTok _ rfl rfl rfl (by decide)]
    simp only [doc_function_filter, defDoc, elide_self]
    rw [show build_arg_string [] = [] from by decide]
    have hne : ∀ (a : Str), S "##### " ++ a ≠ [] := fun a => ne_nil_of_S_append _ _ (by decide)
    simp [stackPush, hne, List.append_assoc, strTok,
      show pyJoin (S "\n") ([] : List Str) = [] from rfl]
    split <;> rfl

/-- Unescaping undoes escaping on backslash-free names (the filter in
`doc_function`/`doc_class` compares `name.replace('\_','_')` against the
export list). -/
theorem esc_unesc (s : Str) (h : '\\' ∉ s) :
    replace2 '\\' '_' (S "_") (replace1 '_' (S "\\_") s) = s := by
  induction s with
  | nil => rfl
  | cons c t ih =>
    have hc : c ≠ '\\' := fun hcc => h (by rw [← hcc]; exact List.mem_cons_self _ _)
    have h2 : '\\' ∉ t := fun hm => h (List.mem_cons_of_mem c hm)
    have iht := ih h2
    by_cases hu : c = '_'
    · subst hu
      rw [show replace1 '_' (S "\\_") ('_' :: t) = '\\' :: '_' :: replace1 '_' (S "\\_") t from by
        simp only [replace1, if_pos rfl]
        rfl]
      rw [show replace2 '\\' '_' (S "_") ('\\' :: '_' :: replace1 '_' (S "\\_") t) =
          '_' :: replace2 '\\' '_' (S "_") (replace1 '_' (S "\\_") t) from by
        simp only [replace2, if_pos (And.intro rfl rfl)]
        rfl]
      rw [iht]
    · rw [show replace1 '_' (S "\\_") (c :: t) = c :: replace1 '_' (S "\\_") t from by
        simp only [replace1, if_neg hu]]
      cases hR : replace1 '_' (S "\\_") t with
      | nil =>
        rw [hR] at iht
        rw [show replace2 '\\' '_' (S "_") [c] = [c] from rfl]
        rw [show t = [] from by rw [← iht]; rfl]
      | cons r rs =>
        rw [hR] at iht
        rw [show replace2 '\\' '_' (S "_") (c :: r :: rs) =
            c :: replace2 '\\' '_' (S "_") (r :: rs) from by
          simp only [replace2]
          rw [if_neg (fun hx => hc hx.1)]]
        rw [iht]

/-- Internal form of the private-name early return of `doc_function`. -/
theorem doc_function_private (fuel : Nat) (m : Bool) (st : PSt) (t : Tok)
    (rest : List Tok) (hfl : st.cur.flag = false) (htk : st.cur.toks = t :: rest)
    (hund : pyStartswith (S "_") t.lex = true) (hini : t.lex ≠ S "__init__") :
    doc_function fuel m st = .ok none { st with cur := ⟨false, some t, rest⟩ } := by
  rw [doc_function, doc_function_core, pnext_eq st t rest hfl htk]
  simp [doc_function_filter, hund, hini]

set_option maxHeartbeats 2000000 in
/-- The member scanner of `find_class_or_function` walks straight
through the body of a discarded definition: every token of `defBody` is
skipped (its indent/dedent pair cancels), leaving the loop at depth 0 at
the following tokens. -/
theorem cof_skip_body (oc : Nat → PSt → Out (Option Str)) (types : List Str) (m : Bool)
    (fuel : Nat) (st : PSt) (d : Df) (ts : List Tok)
    (hfl : st.cur.flag = false) (htk : st.cur.toks = defBody d ++ ts)
    (hpass : ¬ (S "pass") ∈ types) :
    find_cof oc types m (fuel + (defBody d).length) 0 st =
      find_cof oc types m fuel 0 { st with cur := ⟨false, some dedTok, ts⟩ } := by
  obtain ⟨fname, doc?⟩ := d
  cases doc? with
  | some ds =>
    rw [show (defBody ⟨fname, some ds⟩).length = 10 from by simp [defBody]]
    simp only [defBody, List.cons_append, List.append_assoc, List.nil_append] at htk
    rw [cof_skip_other oc types m (fuel + 9) 0 _ (opTok (S "(")) _ hfl htk
      (by decide) (by decide) (by decide)]
    rw [cof_skip_other oc types m (fuel + 8) 0 _ (opTok (S ")")) _ rfl rfl
      (by decide) (by decide) (by decide)]
    rw [cof_skip_other oc types m (fuel + 7) 0 _ (opTok (S ":")) _ rfl rfl
      (by decide) (by decide) (by decide)]
    rw [cof_skip_other oc types m (fuel + 6) 0 _ nlTok _ rfl rfl
      (by decide) (by decide) (by decide)]
    rw [cof_step_indent oc types m (fuel + 5) 0 _ indTok _ rfl rfl rfl]
    rw [cof_skip_other oc types m (fuel + 4) (0 + 1) _ (strTok (tq ++ (ds ++ tq))) _ rfl rfl
      (by simp [strTok]) (by simp [strTok]) (by simp [strTok])]
    rw [cof_skip_other oc types m (fuel + 3) (0 + 1) _ nlTok _ rfl rfl
      (by decide) (by decide) (by decide)]
    rw [cof_skip_name oc types m (fuel + 2) (0 + 1) _ (nmTok (S "pass")) _ rfl rfl rfl
      (by simpa [nmTok] using hpass) (by decide)]
    rw [cof_skip_other oc types m (fuel + 1) (0 + 1) _ nlTok _ rfl rfl
      (by decide) (by decide) (by decide)]
    rw [cof_step_dedent_cont oc types m fuel (0 + 1) _ dedTok _ rfl rfl rfl (by decide)]
    rw [show ((0 : Int) + 1) - 1 = 0 from by decide]
  | none =>
    rw [show (defBody ⟨fname, none⟩).length = 8 from by simp [defBody]]
    simp only [defBody, List.cons_append, List.append_assoc, List.nil_append] at htk
    rw [cof_skip_other oc types m (fuel + 7) 0 _ (opTok (S "(")) _ hfl htk
      (by decide) (by decide) (by decide)]
    rw [cof_skip_other oc types m (fuel + 6) 0 _ (opTok (S ")")) _ rfl rfl
      (by decide) (by decide) (by decide)]
    rw [cof_skip_other oc types m (fuel + 5) 0 _ (opTok (S ":")) _ rfl rfl
      (by decide) (by decide) (by decide)]
    rw [cof_skip_other oc types m (fuel + 4) 0 _ nlTok _ rfl rfl
      (by decide) (by decide) (by decide)]
    rw [cof_step_indent oc types m (fuel + 3) 0 _ indTok _ rfl rfl rfl]
    rw [cof_skip_name oc types m (fuel + 2) (0 + 1) _ (nmTok (S "pass")) _ rfl rfl rfl
      (by simpa [nmTok] using hpass) (by decide)]
    rw [cof_skip_other oc types m (fuel + 1) (0 + 1) _ nlTok _ rfl rfl
      (by decide) (by decide) (by decide)]
    rw [cof_step_dedent_cont oc types m fuel (0 + 1) _ dedTok _ rfl rfl rfl (by decide)]
    rw [show ((0 : Int) + 1) - 1 = 0 from by decide]

theorem pyJoin_cons_cons (sep a b : Str) (bs : List Str) :
    pyJoin sep (a :: b :: bs) = a ++ sep ++ pyJoin sep (b :: bs) := by
  simp [pyJoin, List.intercalate]

theorem pyJoin_ne_nil (sep a : Str) (rest : List Str) (h : a ≠ []) :
    pyJoin sep (a :: rest) ≠ [] := by
  cases rest with
  | nil =>
    intro hc
    apply h
    simpa [pyJoin, List.intercalate] using hc
  | cons b bs =>
    rw [pyJoin_cons_cons]
    intro hc
    rcases List.append_eq_nil.mp hc with ⟨h1, -⟩
    rcases List.append_eq_nil.mp h1 with ⟨h2, -⟩
    exact h h2

theorem stackPush_cons (x a : Str) (l : List Str) :
    stackPush x (a :: l) = a :: (if x = [] then l else l ++ [x]) := by
  by_cases hx : x = [] <;> simp [stackPush, hx]

/-- The value `doc_function` hands back for a retained simple definition
coincides with the `expectedMember` description (empty string when
filtered, the joined block otherwise). -/
theorem member_value_eq (mod : Str) (al : List Str) (ig : Bool) (cls : Str) (d : Df)
    (hbd : '\\' ∉ d.fname) (hcls : cls = [])
    (hpriv : ¬ (pyStartswith (S "_") d.fname = true ∧ d.fname ≠ S "__init__")) :
    (if ((¬ (false : Bool) = true) ∧ al ≠ [] ∧
          ¬ (replace2 '\\' '_' (S "_") (replace1 '_' (S "\\_") d.fname)) ∈ al) ∨
        (ig = true ∧ defDoc d = []) then ([] : Str)
     else pyJoin (S "\n") (stackPush (defDoc d)
       [S "##### " ++ mod ++ S "." ++ (if cls ≠ [] then cls ++ S "." else []) ++
         S "**" ++ replace1 '_' (S "\\_") d.fname ++ S "**" ++ S "(" ++ S ")"])) =
    (match expectedMember mod al ig d with | some s => s | none => []) := by
  subst hcls
  rw [esc_unesc d.fname hbd]
  rw [expectedMember, if_neg hpriv]
  by_cases hC : (al ≠ [] ∧ ¬ d.fname ∈ al) ∨ (ig = true ∧ defDoc d = [])
  · rw [if_pos (by simpa using hC), if_pos hC]
  · rw [if_neg (by simpa using hC), if_neg hC]
    rw [stackPush_ne (defLine mod d) [] (ne_nil_of_S_append "##### " _ (by decide))]
    simp [defLine, List.append_assoc]

theorem expectedMember_ne_nil (mod : Str) (al : List Str) (ig : Bool) (d : Df) (v : Str)
    (h : expectedMember mod al ig d = some v) : v ≠ [] := by
  rw [expectedMember] at h
  split at h
  · cases h
  · split at h
    · cases h
    · rw [stackPush_ne (defLine mod d) [] (ne_nil_of_S_append "##### " _ (by decide))] at h
      simp only [List.nil_append] at h
      rw [stackPush_cons] at h
      cases h
      exact pyJoin_ne_nil _ _ _ (ne_nil_of_S_append "##### " _ (by decide))

/-- `doc_function_on_def`, with the fuel requirement as an inequality. -/
theorem doc_function_on_defLe (fuel : Nat) (hfu : 8 ≤ fuel) (m : Bool) (st : PSt) (d : Df)
    (ts : List Tok) (hfl : st.cur.flag = false)
    (htk : st.cur.toks = nmTok d.fname :: (defBody d ++ ts))
    (hpriv : ¬ (pyStartswith (S "_") d.fname = true ∧ d.fname ≠ S "__init__")) :
    doc_function fuel m st =
      .ok (some (
        if ((¬ m = true) ∧ st.all_list ≠ [] ∧
              ¬ (replace2 '\\' '_' (S "_") (replace1 '_' (S "\\_") d.fname)) ∈ st.all_list) ∨
            (st.ignore_undoc = true ∧ defDoc d = []) then []
        else pyJoin (S "\n") (stackPush (defDoc d)
          [S "##### " ++ st.current_module ++ S "." ++
            (if st.current_class ≠ [] then st.current_class ++ S "." else []) ++
            S "**" ++ replace1 '_' (S "\\_") d.fname ++ S "**" ++ S "(" ++ S ")"])))
        { st with cur := ⟨false, some dedTok, ts⟩ } := by
  obtain ⟨g, rfl⟩ : ∃ g, fuel = g + 8 := ⟨fuel - 8, by omega⟩
  exact doc_function_on_def g m st d ts hfl htk hpriv

set_option maxHeartbeats 2000000 in
/-- The member loop of `DocModule.__init__` over a module body of simple
definitions (with the possibly unconsumed body of a just-discarded
private definition as leading junk): it appends exactly the
`expectedMember` entries, in parse order, and flags `documented` exactly
when some entry was pushed. -/
theorem class_loop_on_defs : ∀ (ds : List Df) (j : Option Df) (fuel : Nat) (st : PSt)
    (acc : List Str) (documented : Bool),
    st.cur.flag = false → st.cur.toks = preToks j ++ modToks ds →
    st.current_class = [] → (∀ d ∈ ds, '\\' ∉ d.fname) →
    ∃ stF, class_loop (fuel + bodyLen j + loopCost ds) st acc documented =
      .ok (acc ++ ds.filterMap (expectedMember st.current_module st.all_list st.ignore_undoc),
        documented || decide (ds.filterMap
          (expectedMember st.current_module st.all_list st.ignore_undoc) ≠ [])) stF := by
  intro ds
  induction ds with
  | nil =>
    intro j fuel st acc docd hfl htk hcls hbs
    cases j with
    | none =>
      refine ⟨st, ?_⟩
      rw [show fuel + bodyLen none + loopCost [] = (fuel + 1) + 1 from by
        simp [bodyLen, loopCost]]
      simp only [class_loop, find_class_or_function]
      rw [cof_step_eos doc_class [S "class", S "def"] false fuel 0 st hfl
        (by simpa [preToks, modToks] using htk)]
      simp
    | some d =>
      refine ⟨{ st with cur := ⟨false, some dedTok, []⟩ }, ?_⟩
      rw [show fuel + bodyLen (some d) + loopCost [] =
          (((fuel + 1) + (defBody d).length) + 1) from by simp [bodyLen, loopCost]; omega]
      simp only [class_loop, find_class_or_function]
      rw [cof_skip_body doc_class [S "class", S "def"] false (fuel + 1) st d [] hfl
        (by simpa [preToks, modToks] using htk) (by decide)]
      rw [cof_step_eos doc_class [S "class", S "def"] false fuel 0 _ rfl rfl]
      simp
  | cons d ds ih =>
    intro j fuel st acc docd hfl htk hcls hbs
    have hbd : '\\' ∉ d.fname := hbs d (List.mem_cons_self _ _)
    have hbs' : ∀ x ∈ ds, '\\' ∉ x.fname := fun x hx => hbs x (List.mem_cons_of_mem d hx)
    have htk' : st.cur.toks = preToks j ++ (nmTok (S "def") :: nmTok d.fname ::
        (defBody d ++ modToks ds)) := by
      simpa [modToks, defToks, List.cons_append, List.append_assoc] using htk
    have hbn : bodyLen (none : Option Df) = 0 := rfl
    have hbsome : ∀ x : Df, bodyLen (some x) = (defBody x).length := fun _ => rfl
    by_cases hpriv : pyStartswith (S "_") d.fname = true ∧ d.fname ≠ S "__init__"
    · -- discarded private definition: only its name is consumed here,
      -- its body is walked transparently by the next scanner call
      have hexp : expectedMember st.current_module st.all_list st.ignore_undoc d = none := by
        rw [expectedMember, if_pos hpriv]
      have hlc : loopCost (d :: ds) = ((defBody d).length + 2) + loopCost ds := by
        simp [loopCost, dfCost, if_pos hpriv]
      cases j with
      | none =>
        simp only [preToks, List.nil_append] at htk'
        obtain ⟨X, hX⟩ : ∃ X, fuel + bodyLen none + loopCost (d :: ds) = (X + 1) + 1 :=
          ⟨fuel + (defBody d).length + loopCost ds, by rw [hbn, hlc]; omega⟩
        obtain ⟨stF, heq⟩ := ih (some d) (fuel + 1)
          { st with cur := ⟨false, some (nmTok d.fname), defBody d ++ modToks ds⟩ }
          acc docd rfl (by simp [preToks]) (by simpa using hcls) hbs'
        rw [show (fuel + 1) + bodyLen (some d) + loopCost ds = X + 1 from by
          rw [hbsome]
          rw [hbn, hlc] at hX
          omega] at heq
        refine ⟨stF, ?_⟩
        rw [hX]
        simp only [class_loop, find_class_or_function]
        rw [cof_dispatch_def doc_class [S "class", S "def"] false X 0 st (nmTok (S "def")) _
          hfl htk' rfl (by decide) (by decide)]
        rw [doc_function_private X false _ (nmTok d.fname) _ rfl rfl
          (by simpa [nmTok] using hpriv.1) (by simpa [nmTok] using hpriv.2)]
        simp only [pushOpt, Bool.or_false]
        show class_loop (X + 1)
          { st with cur := ⟨false, some (nmTok d.fname), defBody d ++ modToks ds⟩ }
          acc docd = _
        rw [heq]
        simp [hexp, List.filterMap_cons]
      | some dj =>
        obtain ⟨X, hX⟩ : ∃ X, fuel + bodyLen (some dj) + loopCost (d :: ds) =
            ((X + 1) + (defBody dj).length) + 1 :=
          ⟨fuel + (defBody d).length + loopCost ds, by rw [hbsome, hlc]; omega⟩
        obtain ⟨stF, heq⟩ := ih (some d) ((fuel + 1) + (defBody dj).length)
          { st with cur := ⟨false, some (nmTok d.fname), defBody d ++ modToks ds⟩ }
          acc docd rfl (by simp [preToks]) (by simpa using hcls) hbs'
        rw [show ((fuel + 1) + (defBody dj).length) + bodyLen (some d) + loopCost ds =
            (X + 1) + (defBody dj).length from by
          rw [hbsome]
          rw [hbsome, hlc] at hX
          omega] at heq
        have hsb := cof_skip_body doc_class [S "class", S "def"] false (X + 1) st dj
          (nmTok (S "def") :: nmTok d.fname :: (defBody d ++ modToks ds)) hfl
          (by simpa [preToks] using htk') (by decide)
        obtain ⟨L, hL⟩ : ∃ L, (defBody dj).length = L := ⟨_, rfl⟩
        rw [hL] at hX hsb heq
        refine ⟨stF, ?_⟩
        rw [hX]
        simp only [class_loop, find_class_or_function]
        rw [hsb]
        rw [cof_dispatch_def doc_class [S "class", S "def"] false X 0 _ (nmTok (S "def")) _
          rfl rfl rfl (by decide) (by decide)]
        rw [doc_function_private X false _ (nmTok d.fname) _ rfl rfl
          (by simpa [nmTok] using hpriv.1) (by simpa [nmTok] using hpriv.2)]
        simp only [pushOpt, Bool.or_false]
        rw [heq]
        simp [hexp, List.filterMap_cons]
    · -- retained (non-private) definition: processed by doc_function
      have hlc : loopCost (d :: ds) = 10 + loopCost ds := by
        simp [loopCost, dfCost, if_neg hpriv]
      cases j with
      | none =>
        simp only [preToks, List.nil_append] at htk'
        obtain ⟨X, hX⟩ : ∃ X, fuel + bodyLen none + loopCost (d :: ds) = (X + 1) + 1 :=
          ⟨fuel + 8 + loopCost ds, by rw [hbn, hlc]; omega⟩
        have hX8 : 8 ≤ X := by
          rw [hbn, hlc] at hX
          omega
        refine ?_
        rw [hX]
        simp only [class_loop, find_class_or_function]
        rw [cof_dispatch_def doc_class [S "class", S "def"] false X 0 st (nmTok (S "def")) _
          hfl htk' rfl (by decide) (by decide)]
        rw [doc_function_on_defLe X hX8 false _ d _ rfl rfl hpriv]
        simp only [pushOpt]
        rw [member_value_eq st.current_module st.all_list st.ignore_undoc st.current_class
          d hbd hcls hpriv]
        cases hem : expectedMember st.current_module st.all_list st.ignore_undoc d with
        | none =>
          simp only [stackPush, if_pos rfl, ne_eq, not_true_eq_false, decide_False,
            Bool.or_false]
          obtain ⟨stF, heq⟩ := ih none ((X + 1) - loopCost ds)
            { st with cur := ⟨false, some dedTok, modToks ds⟩ } acc docd rfl
            (by simp [preToks]) (by simpa using hcls) hbs'
          rw [show ((X + 1) - loopCost ds) + bodyLen none + loopCost ds = X + 1 from by
            rw [hbn, hlc] at hX
            rw [hbn]
            omega] at heq
          refine ⟨stF, ?_⟩
          show class_loop (X + 1)
            { st with cur := ⟨false, some dedTok, modToks ds⟩ } acc docd = _
          rw [heq]
          simp [List.filterMap_cons, hem]
        | some v =>
          have hv : v ≠ [] := expectedMember_ne_nil _ _ _ _ _ hem
          rw [show (match some v with | some s => s | none => ([] : Str)) = v from rfl]
          rw [stackPush_ne v acc hv]
          rw [show (decide (v ≠ [])) = true from by simp [hv]]
          rw [Bool.or_true]
          obtain ⟨stF, heq⟩ := ih none ((X + 1) - loopCost ds)
            { st with cur := ⟨false, some dedTok, modToks ds⟩ } (acc ++ [v]) true rfl
            (by simp [preToks]) (by simpa using hcls) hbs'
          rw [show ((X + 1) - loopCost ds) + bodyLen none + loopCost ds = X + 1 from by
            rw [hbn, hlc] at hX
            rw [hbn]
            omega] at heq
          refine ⟨stF, ?_⟩
          show class_loop (X + 1)
            { st with cur := ⟨false, some dedTok, modToks ds⟩ } (acc ++ [v]) true = _
          rw [heq]
          simp [List.filterMap_cons, hem, List.append_assoc]
      | some dj =>
        obtain ⟨X, hX⟩ : ∃ X, fuel + bodyLen (some dj) + loopCost (d :: ds) =
            ((X + 1) + (defBody dj).length) + 1 :=
          ⟨fuel + 8 + loopCost ds, by rw [hbsome, hlc]; omega⟩
        have hX8 : 8 ≤ X := by
          rw [hbsome, hlc] at hX
          omega
        have hsb := cof_skip_body doc_class [S "class", S "def"] false (X + 1) st dj
          (nmTok (S "def") :: nmTok d.fname :: (defBody d ++ modToks ds)) hfl
          (by simpa [preToks] using htk') (by decide)
        obtain ⟨L, hL⟩ : ∃ L, (defBody dj).length = L := ⟨_, rfl⟩
        rw [hL] at hX hsb
        refine ?_
        rw [hX]
        simp only [class_loop, find_class_or_function]
        rw [hsb]
        rw [cof_dispatch_def doc_class [S "class", S "def"] false X 0 _ (nmTok (S "def")) _
          rfl rfl rfl (by decide) (by decide)]
        rw [doc_function_on_defLe X hX8 false _ d _ rfl rfl hpriv]
        simp only [pushOpt]
        rw [member_value_eq st.current_module st.all_list st.ignore_undoc st.current_class
          d hbd hcls hpriv]
        cases hem : expectedMember st.current_module st.all_list st.ignore_undoc d with
        | none =>
          simp only [stackPush, if_pos rfl, ne_eq, not_true_eq_false, decide_False,
            Bool.or_false]
          obtain ⟨stF, heq⟩ := ih none ((X + 1) + L - loopCost ds)
            { st with cur := ⟨false, some dedTok, modToks ds⟩ } acc docd rfl
            (by simp [preToks]) (by simpa using hcls) hbs'
          rw [show ((X + 1) + L - loopCost ds) + bodyLen none +
              loopCost ds = (X + 1) + L from by
            rw [hlc] at hX
            rw [hbn]
            omega] at heq
          refine ⟨stF, ?_⟩
          show class_loop ((X + 1) + L)
            { st with cur := ⟨false, some dedTok, modToks ds⟩ } acc docd = _
          rw [heq]
          simp [List.filterMap_cons, hem]
        | some v =>
          have hv : v ≠ [] := expectedMember_ne_nil _ _ _ _ _ hem
          rw [show (match some v with | some s => s | none => ([] : Str)) = v from rfl]
          rw [stackPush_ne v acc hv]
          rw [show (decide (v ≠ [])) = true from by simp [hv]]
          rw [Bool.or_true]
          obtain ⟨stF, heq⟩ := ih none ((X + 1) + L - loopCost ds)
            { st with cur := ⟨false, some dedTok, modToks ds⟩ } (acc ++ [v]) true rfl
            (by simp [preToks]) (by simpa using hcls) hbs'
          rw [show ((X + 1) + L - loopCost ds) + bodyLen none +
              loopCost ds = (X + 1) + L from by
            rw [hlc] at hX
            rw [hbn]
            omega] at heq
          refine ⟨stF, ?_⟩
          show class_loop ((X + 1) + L)
            { st with cur := ⟨false, some dedTok, modToks ds⟩ } (acc ++ [v]) true = _
          rw [heq]
          simp [List.filterMap_cons, hem, List.append_assoc]

/-- **C2** (counterexample to the original claim): in the demonstration
module the captured export list is `['go', 'stop']`, yet under
`IGNORE_UNDOCUMENTED` the produced module document keeps only the
documented `go`.  The undocumented `stop`, although present in the
export list, is dropped, so the top-level members are not exactly the
definitions whose names appear in the list. -/
theorem c2_counterexample :
    (S "stop") ∈ (match find_docstring 100 (demoSt demoToks) with
      | .ok _ st1 => st1.all_list
      | .sig _ _ => []) ∧
    doc_module 100 (S "m.py") true demoToks =
      some [S "## m.py", S "##### m.**go**(_x_)\nDoes it"] :=
  ⟨by decide, by rfl⟩

/-- **C2** (amended): over a module body of simple top-level
definitions the member loop emits exactly `expectedMember` of each
definition, in source order: a definition is kept iff its name is not
private, its name appears in the export list whenever that list is
non-empty, and it has a docstring whenever `IGNORE_UNDOCUMENTED` is
set.  Membership in a non-empty export list is therefore necessary but
not sufficient for retention. -/
theorem c2_export_list_members (ds : List Df) (fuel : Nat) (st : PSt)
    (acc : List Str) (documented : Bool)
    (hfl : st.cur.flag = false) (htk : st.cur.toks = modToks ds)
    (hcls : st.current_class = []) (hbs : ∀ d ∈ ds, '\\' ∉ d.fname) :
    ∃ stF, class_loop (fuel + loopCost ds) st acc documented =
      .ok (acc ++ ds.filterMap
          (expectedMember st.current_module st.all_list st.ignore_undoc),
        documented || decide (ds.filterMap
          (expectedMember st.current_module st.all_list st.ignore_undoc) ≠ [])) stF := by
  have h := class_loop_on_defs ds none fuel st acc documented hfl
    (by simpa [preToks] using htk) hcls hbs
  simpa [bodyLen] using h

/-- Witness for the amended C2 theorem at a concrete module: export
list `['go', 'stop']`, documented `go`, undocumented `stop`, under
`IGNORE_UNDOCUMENTED`; only the `go` block is emitted. -/
theorem c2_witness :
    ∃ stF, class_loop
      (0 + loopCost [⟨S "go", some (S "Does it")⟩, ⟨S "stop", none⟩])
      { cur := ⟨false, none,
          modToks [⟨S "go", some (S "Does it")⟩, ⟨S "stop", none⟩]⟩,
        all_list := [S "go", S "stop"], current_module := S "m",
        current_class := [], ignore_undoc := true, has_classes_title := false }
      [] false =
    .ok ([S "##### m.**go**()\nDoes it"], true) stF := by
  obtain ⟨stF, h⟩ := c2_export_list_members
    [⟨S "go", some (S "Does it")⟩, ⟨S "stop", none⟩] 0
    { cur := ⟨false, none,
        modToks [⟨S "go", some (S "Does it")⟩, ⟨S "stop", none⟩]⟩,
      all_list := [S "go", S "stop"], current_module := S "m",
      current_class := [], ignore_undoc := true, has_classes_title := false }
    [] false rfl rfl rfl (by decide)
  exact ⟨stF, by rw [h]; rfl⟩

/-- One unfolding of the method loop. -/
theorem ml_unfold (fuel : Nat) (st : PSt) (acc : List Str) :
    method_loop (fuel + 1) st acc =
      match find_cof no_class [S "def"] true fuel 0 st with
      | .ok r st' => method_loop fuel st' (pushOpt r acc)
      | .sig .blockExit st' => .ok acc st'
      | .sig s st' => .sig s st' := rfl

/-- `find_method()` over the junk prefix a nested class header leaves in
a class body (`NEWLINE class B : NEWLINE INDENT docstring NEWLINE`)
followed by a `def`: every junk token is plainly skipped — the nested
`class` keyword is not in `types=('def',)` — and the nested definition
is documented exactly as a method of the *enclosing* class recorded in
`current_class`. -/
theorem find_method_junk8 (fuel : Nat) (st : PSt) (B dB : Str) (d : Df) (ts : List Tok)
    (hfl : st.cur.flag = false)
    (htk : st.cur.toks = nlTok :: nmTok (S "class") :: nmTok B :: opTok (S ":") :: nlTok ::
      indTok :: strTok (tq ++ dB ++ tq) :: nlTok :: nmTok (S "def") :: nmTok d.fname ::
      (defBody d ++ ts))
    (hB1 : B ≠ S "def") (hB2 : B ≠ S "__all__")
    (hpriv : ¬ (pyStartswith (S "_") d.fname = true ∧ d.fname ≠ S "__init__")) :
    find_cof no_class [S "def"] true (fuel + 18) 0 st =
      .ok (some (if st.ignore_undoc = true ∧ defDoc d = [] then []
        else pyJoin (S "\n") (stackPush (defDoc d)
          [S "##### " ++ st.current_module ++ S "." ++
            (if st.current_class ≠ [] then st.current_class ++ S "." else []) ++
            S "**" ++ replace1 '_' (S "\\_") d.fname ++ S "**" ++ S "(" ++ S ")"])))
        { st with cur := ⟨false, some dedTok, ts⟩ } := by
  rw [cof_skip_other no_class [S "def"] true (fuel + 17) 0 st nlTok _ hfl htk
    (by decide) (by decide) (by decide)]
  rw [cof_skip_name no_class [S "def"] true (fuel + 16) 0 _ (nmTok (S "class")) _ rfl rfl
    rfl (by decide) (by decide)]
  rw [cof_skip_name no_class [S "def"] true (fuel + 15) 0 _ (nmTok B) _ rfl rfl
    rfl (by simpa [nmTok] using hB1) (by simpa [nmTok] using hB2)]
  rw [cof_skip_other no_class [S "def"] true (fuel + 14) 0 _ (opTok (S ":")) _ rfl rfl
    (by decide) (by decide) (by decide)]
  rw [cof_skip_other no_class [S "def"] true (fuel + 13) 0 _ nlTok _ rfl rfl
    (by decide) (by decide) (by decide)]
  rw [cof_step_indent no_class [S "def"] true (fuel + 12) 0 _ indTok _ rfl rfl rfl]
  rw [cof_skip_other no_class [S "def"] true (fuel + 11) (0 + 1) _
    (strTok (tq ++ dB ++ tq)) _ rfl rfl (by simp [strTok]) (by simp [strTok])
    (by simp [strTok])]
  rw [cof_skip_other no_class [S "def"] true (fuel + 10) (0 + 1) _ nlTok _ rfl rfl
    (by decide) (by decide) (by decide)]
  rw [cof_dispatch_def no_class [S "def"] true (fuel + 9) (0 + 1) _ (nmTok (S "def")) _
    rfl rfl rfl (by decide) (by decide)]
  rw [doc_function_on_defLe (fuel + 9) (by omega) true _ d _ rfl rfl hpriv]
  simp

/-- `find_method()` on an immediate `def`: the definition is documented
as a method of the class recorded in `current_class`. -/
theorem find_method_def (fuel : Nat) (st : PSt) (d : Df) (ts : List Tok)
    (hfl : st.cur.flag = false)
    (htk : st.cur.toks = nmTok (S "def") :: nmTok d.fname :: (defBody d ++ ts))
    (hpriv : ¬ (pyStartswith (S "_") d.fname = true ∧ d.fname ≠ S "__init__")) :
    find_cof no_class [S "def"] true (fuel + 10) 0 st =
      .ok (some (if st.ignore_undoc = true ∧ defDoc d = [] then []
        else pyJoin (S "\n") (stackPush (defDoc d)
          [S "##### " ++ st.current_module ++ S "." ++
            (if st.current_class ≠ [] then st.current_class ++ S "." else []) ++
            S "**" ++ replace1 '_' (S "\\_") d.fname ++ S "**" ++ S "(" ++ S ")"])))
        { st with cur := ⟨false, some dedTok, ts⟩ } := by
  rw [cof_dispatch_def no_class [S "def"] true (fuel + 9) 0 st (nmTok (S "def")) _
    hfl htk rfl (by decide) (by decide)]
  rw [doc_function_on_defLe (fuel + 9) (by omega) true _ d _ rfl rfl hpriv]
  simp

/-- **C9**: `doc_class` on a class `A` whose body contains a nested
class `B` (with docstring) holding two function definitions: the nested
class `B` contributes no entry of its own to the class document — its
header tokens are plainly skipped by the method loop, whose
`types=('def',)` guard matches only the `def` keyword — while both
definitions inside `B`'s body are extracted as methods of the
*enclosing* class `A` (their headings carry `A`'s name from
`current_class`).  The scan stops at the dedent closing `B`'s body,
leaving the dedent that closes `A` unconsumed. -/
theorem c9_nested_class_methods (F : Nat) (st : PSt) (A dA B dB : Str) (m1 m2 : Df)
    (rest : List Tok)
    (hfl : st.cur.flag = false)
    (htk : st.cur.toks = c9Toks A dA B dB m1 m2 rest)
    (hal : st.all_list = []) (hig : st.ignore_undoc = false)
    (hct : st.has_classes_title = false)
    (hB1 : B ≠ S "def") (hB2 : B ≠ S "__all__")
    (hm1 : ¬ (pyStartswith (S "_") m1.fname = true ∧ m1.fname ≠ S "__init__"))
    (hm2 : ¬ (pyStartswith (S "_") m2.fname = true ∧ m2.fname ≠ S "__init__"))
    (hA : replace1 '_' (S "\\_") A ≠ []) :
    doc_class (F + 40) st =
      .ok (some (pyJoin (S "\n")
        (stackPush (methodBlock st.current_module (replace1 '_' (S "\\_") A) m2)
          (stackPush (methodBlock st.current_module (replace1 '_' (S "\\_") A) m1)
            (stackPush (normalize_docstring (tq ++ dA ++ tq))
              [S "### Classes",
               S "#### _class_ " ++ st.current_module ++ S ".**" ++
                 replace1 '_' (S "\\_") A ++ S "**"])))))
        { st with
          cur := ⟨false, some dedTok, dedTok :: rest⟩,
          current_class := [], has_classes_title := true } := by
  rw [doc_class, pnext_eq st (nmTok A) _ hfl (by simpa [c9Toks] using htk)]
  simp only [nmTok]
  rw [fc_step_colon (F + 39) [] _ _ rfl rfl]
  simp only [opTok]
  rw [fd_step_skip (F + 39) _ nlTok _ rfl rfl (by decide) (by decide)]
  rw [fd_step_skip (F + 38) _ indTok _ rfl rfl (by decide) (by decide)]
  rw [fd_step_str (F + 37) _ (strTok (tq ++ (dA ++ tq))) _ rfl rfl rfl
    (Or.inl (isPre_app tq (dA ++ tq)))]
  simp only []
  rw [ml_unfold (F + 39)]
  rw [find_method_junk8 (F + 21) _ B dB m1 _ rfl rfl hB1 hB2 hm1]
  simp only [pushOpt]
  rw [ml_unfold (F + 38)]
  rw [find_method_def (F + 28) _ m2 _ rfl rfl hm2]
  simp only [pushOpt]
  rw [ml_unfold (F + 37)]
  rw [cof_step_dedent_exit no_class [S "def"] true (F + 36) 0 _ dedTok _ rfl rfl rfl
    (by decide)]
  simp only []
  simp [hal, hig, hct, hA, methodBlock, methodLine, List.append_assoc, strTok]
  rw [show stackPush (S "### Classes") [] = [S "### Classes"] from by decide]
  rw [stackPush_ne _ [S "### Classes"] (ne_nil_of_S_append "#### _class_ " _ (by decide))]
  rfl

/-- Witness for the C9 theorem at a concrete class: `class A` with
docstring `Adoc`, nested `class Bee` with docstring `Bdoc` holding a
documented `f` and an undocumented `g`; both are emitted as methods of
`A` and `Bee` contributes no entry. -/
theorem c9_witness :
    doc_class (0 + 40)
      { cur := ⟨false, none, c9Toks (S "A") (S "Adoc") (S "Bee") (S "Bdoc")
          ⟨S "f", some (S "Fdoc")⟩ ⟨S "g", none⟩ []⟩,
        all_list := [], current_module := S "m", current_class := [],
        ignore_undoc := false, has_classes_title := false } =
      .ok (some (pyJoin (S "\n")
        (stackPush (methodBlock (S "m") (replace1 '_' (S "\\_") (S "A")) ⟨S "g", none⟩)
          (stackPush (methodBlock (S "m") (replace1 '_' (S "\\_") (S "A"))
              ⟨S "f", some (S "Fdoc")⟩)
            (stackPush (normalize_docstring (tq ++ S "Adoc" ++ tq))
              [S "### Classes",
               S "#### _class_ " ++ S "m" ++ S ".**" ++
                 replace1 '_' (S "\\_") (S "A") ++ S "**"])))))
        { cur := ⟨false, some dedTok, dedTok :: ([] : List Tok)⟩,
          all_list := [], current_module := S "m", current_class := [],
          ignore_undoc := false, has_classes_title := true } :=
  c9_nested_class_methods 0 _ (S "A") (S "Adoc") (S "Bee") (S "Bdoc")
    ⟨S "f", some (S "Fdoc")⟩ ⟨S "g", none⟩ [] rfl rfl rfl rfl rfl
    (by decide) (by decide) (by decide) (by decide) (by decide)
